import Mathlib

/-!
# X-Twitter-Globe relay: embedding of `server.js`

The development embeds the live-feed relay of `server.js`: the record
normalizer `processTweetData`, the synthetic generator `generateRandomTweet`,
the fallback scheduler `startSendingSimulatedTweets` / `sendSimulatedTweet`
and the per-connection session (`wss.on('connection')`, `startTwitterStream`).

Modelling conventions
* JavaScript values are the values reachable from a JSON-parsed event plus
  `undefined`, `NaN` and the two infinities.  A finite number is the rational it
  denotes; signed zero is not represented.  The arithmetic of the normalizer and
  of the scheduler (`+`, `*`, `/ 2`) rounds every result to the nearest double,
  ties to even, and overflows to an infinity (`roundDouble`).  The arithmetic of
  the generator on a draw (`r * 180 - 90`, `r * 360 - 180`, the array index) is
  exact.
* Strings are sequences of code points; this agrees with JavaScript indexing
  and length on strings of the Basic Multilingual Plane.
* A thrown `TypeError` is the value `none` of an `Option` computation.
* `Math.random()` is a stream `rnd : ℕ → ℚ` read at a position that advances by
  one per call; `new Date().toISOString()` is a parameter `now`.
-/

namespace XGlobe

/-! ## JavaScript values -/

/-- JavaScript values that can occur while `server.js` processes a JSON event. -/
inductive JSVal where
  | undefined : JSVal
  | null : JSVal
  | bool (b : Bool) : JSVal
  | num (q : ℚ) : JSVal
  | nan : JSVal
  | inf (negative : Bool) : JSVal
  | str (s : String) : JSVal
  | arr (xs : List JSVal) : JSVal
  | obj (fields : List (String × JSVal)) : JSVal

instance : Inhabited JSVal := ⟨JSVal.undefined⟩

open JSVal

/-- Built-in conversions of the JavaScript runtime between numbers and strings
(`Number::toString` on finite numbers and `StringToNumber`, whose result is a
number value).  They are not part of the repository and are taken as
parameters. -/
structure Runtime where
  numToString : ℚ → String
  stringToNumber : String → JSVal

/-- ECMAScript `ToBoolean`. -/
def truthy : JSVal → Bool
  | .undefined => false
  | .null => false
  | .bool b => b
  | .num q => q != 0
  | .nan => false
  | .inf _ => true
  | .str s => s != ""
  | .arr _ => true
  | .obj _ => true

/-- Strict equality `===`.  Arrays and objects compare by reference; two values
read from different places of a parsed JSON tree are never the same reference. -/
def strictEq : JSVal → JSVal → Bool
  | .undefined, .undefined => true
  | .null, .null => true
  | .bool a, .bool b => a == b
  | .num a, .num b => a == b
  | .inf a, .inf b => a == b
  | .str a, .str b => a == b
  | _, _ => false

/-- Own-property lookup in a parsed JSON object. -/
def lookupField (k : String) : List (String × JSVal) → JSVal
  | [] => .undefined
  | (k', v) :: rest => if k' = k then v else lookupField k rest

/-- Length of a string in UTF-16 code units. -/
def utf16Length (s : String) : ℕ :=
  (s.toList.map (fun c => if c.toNat < 65536 then 1 else 2)).sum

/-- Property read `v.k` for the data property names used by `server.js`
(`data`, `includes`, `places`, `users`, `length`, `id`, `author_id`, `geo`,
`bbox`, `entities`, `hashtags`, `tag`, `text`, `username`, `full_name`,
`country`, `created_at`).  Reading a property of `undefined` or `null` throws. -/
def getProp (v : JSVal) (k : String) : Option JSVal :=
  match v with
  | .undefined => none
  | .null => none
  | .obj fields => some (lookupField k fields)
  | .arr xs => some (if k = "length" then .num xs.length else .undefined)
  | .str s => some (if k = "length" then .num (utf16Length s) else .undefined)
  | _ => some .undefined

/-- Indexed read `v[i]` for a literal index `i`. -/
def getIndex (v : JSVal) (i : ℕ) : Option JSVal :=
  match v with
  | .undefined => none
  | .null => none
  | .arr xs => some (xs.getD i .undefined)
  | .obj fields => some (lookupField (toString i) fields)
  | .str s => some (match s.toList.get? i with
      | some c => .str (String.singleton c)
      | none => .undefined)
  | _ => some .undefined

/-- `Array.prototype.find` called as `v.find(pred)`.  Only arrays have a callable
`find`; on every other value the call throws. -/
def callFind (v : JSVal) (pred : JSVal → Option Bool) : Option JSVal :=
  match v with
  | .arr xs =>
    let rec go : List JSVal → Option JSVal
      | [] => some .undefined
      | x :: rest =>
        match pred x with
        | none => none
        | some true => some x
        | some false => go rest
    go xs
  | _ => none

/-- `Array.prototype.map` called as `v.map(f)`.  Only arrays have a callable
`map`; on every other value the call throws. -/
def callMap (v : JSVal) (f : JSVal → Option JSVal) : Option (List JSVal) :=
  match v with
  | .arr xs => xs.mapM f
  | _ => none

mutual
/-- ECMAScript `ToString`. -/
def toStr (rt : Runtime) : JSVal → String
  | .undefined => "undefined"
  | .null => "null"
  | .bool b => if b then "true" else "false"
  | .num q => rt.numToString q
  | .nan => "NaN"
  | .inf negative => if negative then "-Infinity" else "Infinity"
  | .str s => s
  | .arr xs => joinComma rt xs
  | .obj _ => "[object Object]"
/-- `Array.prototype.join` with the default separator: `undefined` and `null`
elements contribute the empty string. -/
def joinComma (rt : Runtime) : List JSVal → String
  | [] => ""
  | [x] => elemStr rt x
  | x :: y :: rest => elemStr rt x ++ "," ++ joinComma rt (y :: rest)
/-- String contributed by one array element to `join`. -/
def elemStr (rt : Runtime) : JSVal → String
  | .undefined => ""
  | .null => ""
  | .bool b => if b then "true" else "false"
  | .num q => rt.numToString q
  | .nan => "NaN"
  | .inf negative => if negative then "-Infinity" else "Infinity"
  | .str s => s
  | .arr xs => joinComma rt xs
  | .obj _ => "[object Object]"
end

/-- ECMAScript `ToPrimitive` on JSON values: arrays and plain objects convert to
their string form, primitives are unchanged. -/
def toPrimitive (rt : Runtime) : JSVal → JSVal
  | .arr xs => .str (toStr rt (.arr xs))
  | .obj fields => .str (toStr rt (.obj fields))
  | v => v

/-- Rounding of a rational to the nearest integer, ties to the even one. -/
def roundHalfEven (x : ℚ) : ℤ :=
  let f := ⌊x⌋
  if x - f < 1 / 2 then f
  else if 1 / 2 < x - f then f + 1
  else if f % 2 = 0 then f else f + 1

/-- Exponent of the unit in the last place of a double of magnitude `a`: 52
binary places below the leading bit, and `-1074` throughout the subnormal
range. -/
def ulpExponent (a : ℚ) : ℤ := max (Int.log 2 a) (-1022) - 52

/-- IEEE 754 binary64 rounding of an exact result: the nearest double, ties to
the even significand, and an infinity when the rounded magnitude reaches
`2 ^ 1024`. -/
def roundDouble (q : ℚ) : JSVal :=
  if q = 0 then .num 0
  else
    let r : ℚ := (roundHalfEven (q / 2 ^ ulpExponent |q|) : ℚ) * 2 ^ ulpExponent |q|
    if (2 : ℚ) ^ (1024 : ℤ) ≤ |r| then .inf (decide (r < 0)) else .num r

/-- Sum of two number values (`Number::add`). -/
def addNum : JSVal → JSVal → JSVal
  | .num a, .num b => roundDouble (a + b)
  | .inf s, .inf t => if s = t then .inf s else .nan
  | .inf s, .num _ => .inf s
  | .num _, .inf t => .inf t
  | _, _ => .nan

/-- Product of two number values (`Number::multiply`). -/
def mulNum : JSVal → JSVal → JSVal
  | .num a, .num b => roundDouble (a * b)
  | .inf s, .inf t => .inf (s != t)
  | .inf s, .num b => if b = 0 then .nan else .inf (s != decide (b < 0))
  | .num a, .inf t => if a = 0 then .nan else .inf (decide (a < 0) != t)
  | _, _ => .nan

/-- A number value divided by the number `2`. -/
def halfNum : JSVal → JSVal
  | .num a => roundDouble (a / 2)
  | .inf s => .inf s
  | _ => .nan

/-- ECMAScript `ToNumber`. -/
def toNumber (rt : Runtime) : JSVal → JSVal
  | .undefined => .nan
  | .null => .num 0
  | .bool b => .num (if b then 1 else 0)
  | .num q => .num q
  | .nan => .nan
  | .inf negative => .inf negative
  | .str s => rt.stringToNumber s
  | .arr xs => rt.stringToNumber (toStr rt (.arr xs))
  | .obj fields => rt.stringToNumber (toStr rt (.obj fields))

/-- Whether a value is a string. -/
def isStr : JSVal → Bool
  | .str _ => true
  | _ => false

/-- The binary operator `a + b`: string concatenation when either operand is a
string after `ToPrimitive`, numeric addition otherwise. -/
def jsAdd (rt : Runtime) (a b : JSVal) : JSVal :=
  let pa := toPrimitive rt a
  let pb := toPrimitive rt b
  if isStr pa || isStr pb then .str (toStr rt pa ++ toStr rt pb)
  else addNum (toNumber rt pa) (toNumber rt pb)

/-- The expression `a / 2`. -/
def jsDiv2 (rt : Runtime) (a : JSVal) : JSVal :=
  halfNum (toNumber rt a)

/-! ## The canonical output record and the normalizer -/

/-- The object literal returned by `processTweetData` and `generateRandomTweet`. -/
structure TweetRecord where
  type : String
  lat : JSVal
  lon : JSVal
  text : JSVal
  username : JSVal
  trending : Bool
  hashtags : List JSVal
  place : JSVal
  country : JSVal
  timestamp : JSVal

/-- The expression `users ? users.find(u => u.id === tweet.author_id) : null`. -/
def findUser (tweet users : JSVal) : Option JSVal :=
  if truthy users then
    callFind users (fun u =>
      (getProp u "id").bind (fun uid =>
        (getProp tweet "author_id").bind (fun aid => some (strictEq uid aid))))
  else some .null

/-- The condition `place.geo && place.geo.bbox`, as a boolean. -/
def hasBBox (place : JSVal) : Option Bool :=
  (getProp place "geo").bind (fun geo =>
    if truthy geo then (getProp geo "bbox").map truthy else some false)

/-- The expression `(bbox[i] + bbox[j]) / 2`. -/
def midpoint (rt : Runtime) (bbox : JSVal) (i j : ℕ) : Option JSVal :=
  (getIndex bbox i).bind (fun a =>
    (getIndex bbox j).bind (fun b => some (jsDiv2 rt (jsAdd rt a b))))

/-- The expression
`tweet.entities && tweet.entities.hashtags ? tweet.entities.hashtags.map(tag => tag.tag) : []`. -/
def extractHashtags (tweet : JSVal) : Option (List JSVal) :=
  (getProp tweet "entities").bind (fun entities =>
    if truthy entities then
      (getProp entities "hashtags").bind (fun h =>
        if truthy h then callMap h (fun tag => getProp tag "tag") else some [])
    else some [])

/-- The template `user ? "@" + user.username : 'unknown'` of the `username` field. -/
def formatUsername (rt : Runtime) (user : JSVal) : Option JSVal :=
  if truthy user then
    (getProp user "username").map (fun name => JSVal.str ("@" ++ toStr rt name))
  else some (JSVal.str "unknown")

/-- The expression `tweet.created_at || new Date().toISOString()`. -/
def timestampOf (now : String) (tweet : JSVal) : Option JSVal :=
  (getProp tweet "created_at").map (fun c => if truthy c then c else JSVal.str now)

/-- The returned object literal, its fields evaluated in source order. -/
def buildRecord (rt : Runtime) (now : String) (tweet place user lat lon : JSVal)
    (hashtags : List JSVal) : Option TweetRecord :=
  (getProp tweet "text").bind (fun text =>
  (formatUsername rt user).bind (fun username =>
  (getProp place "full_name").bind (fun fullName =>
  (getProp place "country").bind (fun country =>
  (timestampOf now tweet).bind (fun timestamp =>
    some {
      type := "tweet"
      lat := lat
      lon := lon
      text := text
      username := username
      trending := decide (hashtags.length > 0)
      hashtags := hashtags
      place := fullName
      country := country
      timestamp := timestamp })))))

/-- Lines 199-234 of `processTweetData`, after the first place has been read. -/
def processPlace (rt : Runtime) (now : String) (tweet users place : JSVal) :
    Option (Option TweetRecord) :=
  (findUser tweet users).bind (fun user =>
  (hasBBox place).bind (fun ok =>
    if ok then
      (getProp place "geo").bind (fun geo =>
      (getProp geo "bbox").bind (fun bbox =>
      (midpoint rt bbox 0 2).bind (fun lon =>
      (midpoint rt bbox 1 3).bind (fun lat =>
      (extractHashtags tweet).bind (fun hashtags =>
      (buildRecord rt now tweet place user lat lon hashtags).map some)))))
    else some none))

/-- Lines 190-197 of `processTweetData`: the places check. -/
def processIncludes (rt : Runtime) (now : String) (tweet includes : JSVal) :
    Option (Option TweetRecord) :=
  (getProp includes "places").bind (fun places =>
  (getProp includes "users").bind (fun users =>
    if !truthy places then some none
    else (getProp places "length").bind (fun len =>
      if strictEq len (.num 0) then some none
      else (getIndex places 0).bind (fun place =>
        processPlace rt now tweet users place))))

/-- Body of the `try` block of `processTweetData`: outer `none` is a thrown
exception, `some none` is `return null`, `some (some r)` is a returned record. -/
def processTweetDataBody (rt : Runtime) (now : String) (tweetData : JSVal) :
    Option (Option TweetRecord) :=
  (getProp tweetData "data").bind (fun data =>
    if !truthy data then some none
    else (getProp tweetData "includes").bind (fun includes =>
      if !truthy includes then some none
      else processIncludes rt now data includes))

/-- The function `processTweetData`: the `catch` clause turns every exception
into `null`.  The result `none` is JavaScript `null` (no record). -/
def processTweetData (rt : Runtime) (now : String) (tweetData : JSVal) :
    Option TweetRecord :=
  match processTweetDataBody rt now tweetData with
  | some r => r
  | none => none

/-! ## The synthetic record generator -/

/-- The array `tweetTexts` of `generateRandomTweet`. -/
def tweetTexts : List String := [
  "Just posted a new blog about JavaScript performance optimization! #JavaScript #WebDev",
  "Loving the new features in the latest React update! #ReactJS #Frontend",
  "Working on a cool new project with Node.js and WebSockets! #NodeJS #RealTime",
  "Machine learning is fascinating! Just completed my first TensorFlow model. #ML #AI",
  "Docker containers make deployment so much easier! #DevOps #Docker",
  "Just pushed my latest project to GitHub! Check it out! #OpenSource #Coding",
  "Learning TypeScript today. Types are actually pretty nice! #TypeScript #JavaScript",
  "Cloud computing has revolutionized how we build applications! #AWS #Cloud",
  "Debugging this CSS issue for hours... #WebDev #CSSProblems",
  "Just deployed my first serverless function! #Serverless #CloudComputing"]

/-- The array `usernames` of `generateRandomTweet`. -/
def usernames : List String := [
  "@devguru", "@codemaster", "@techexplorer", "@webwizard", "@datascientist",
  "@cloudarchitect", "@uxdesigner", "@mobiledeveloper", "@securityexpert",
  "@airesearcher"]

/-- The array `places` of `getRandomPlace`. -/
def places : List String := [
  "New York, NY", "San Francisco, CA", "London, UK", "Tokyo, Japan",
  "Sydney, Australia", "Berlin, Germany", "Paris, France", "Toronto, Canada",
  "Mumbai, India", "Rio de Janeiro, Brazil"]

/-- The array `countries` of `getRandomCountry`. -/
def countries : List String := [
  "United States", "United Kingdom", "Japan", "Australia", "Germany", "France",
  "Canada", "India", "Brazil", "South Korea"]

/-- The expression `xs[Math.floor(r * xs.length)]` for a draw `r`: an index
outside the array reads `undefined`. -/
def pick (xs : List String) (r : ℚ) : JSVal :=
  let i : ℤ := ⌊r * (xs.length : ℚ)⌋
  if 0 ≤ i then
    match xs.get? i.toNat with
    | some s => .str s
    | none => .undefined
  else .undefined

/-- The character class `\w` (no unicode flag): ASCII letters, digits, `_`. -/
def isWordChar (c : Char) : Bool :=
  c.isAlphanum || c == '_'

/-- All matches of the global regular expression `/#(\w+)/g` in a character
list, left to right.  `skip` counts characters still covered by the previous
match; at a `#` followed by at least one word character the match extends over
the longest run of word characters. -/
def hashtagMatchesFrom : List Char → ℕ → List String
  | [], _ => []
  | _ :: cs, skip + 1 => hashtagMatchesFrom cs skip
  | c :: cs, 0 =>
    if c == '#' then
      let w := cs.takeWhile isWordChar
      if w.isEmpty then hashtagMatchesFrom cs 0
      else String.mk ('#' :: w) :: hashtagMatchesFrom cs w.length
    else hashtagMatchesFrom cs 0

/-- The expression `text.match(/#(\w+)/g) || []` on a string. -/
def hashtagMatches (text : String) : List String :=
  hashtagMatchesFrom text.toList 0

/-- The function `getRandomPlace`, reading one draw. -/
def getRandomPlace (r : ℚ) : JSVal := pick places r

/-- The function `getRandomCountry`, reading one draw. -/
def getRandomCountry (r : ℚ) : JSVal := pick countries r

/-- The function `generateRandomTweet`.  It reads the seven draws
`rnd k, ..., rnd (k+6)` in source order (lat, lon, text, username, trending,
place, country).  `none` is the `TypeError` of `text.match` on `undefined`. -/
def generateRandomTweet (now : String) (rnd : ℕ → ℚ) (k : ℕ) : Option TweetRecord :=
  let lat := rnd k * 180 - 90
  let lon := rnd (k + 1) * 360 - 180
  let text := pick tweetTexts (rnd (k + 2))
  let username := pick usernames (rnd (k + 3))
  match text with
  | .str t =>
    let hashtags := (hashtagMatches t).map (fun tag => tag.drop 1)
    let trending := decide (rnd (k + 4) < 1 / 5) || decide (hashtags.length > 0)
    some {
      type := "tweet"
      lat := .num lat
      lon := .num lon
      text := text
      username := username
      trending := trending
      hashtags := hashtags.map JSVal.str
      place := getRandomPlace (rnd (k + 5))
      country := getRandomCountry (rnd (k + 6))
      timestamp := .str now }
  | _ => none

/-! ## Channel, effects and the fallback scheduler -/

/-- The `readyState` of a WebSocket. -/
inductive ReadyState where
  | CONNECTING
  | OPEN
  | CLOSING
  | CLOSED
  deriving DecidableEq

/-- A message handed to `ws.send(JSON.stringify(...))`, before serialisation. -/
inductive Message where
  | info (type : String) (message : String)
  | tweet (r : TweetRecord)

/-- Call site of a `ws.send`: the greeting of the connection handler, the
`data` handler of the stream, or `sendSimulatedTweet`. -/
inductive Origin where
  | greeting
  | live
  | simulated
  deriving DecidableEq

/-- Calls on the upstream client `readOnlyClient.v2`. -/
inductive UpstreamCall where
  | streamRules
  | updateStreamRulesDelete
  | updateStreamRulesAdd
  | searchStream
  deriving DecidableEq

/-- Observable effects of one connection session.  `startFallback` marks an
entry into `startSendingSimulatedTweets`. -/
inductive Effect where
  | send (origin : Origin) (m : Message)
  | upstream (c : UpstreamCall)
  | startFallback
  | setTimeout (delay : JSVal)
  | streamClose

/-- Which handlers of `startTwitterStream` exist for the connection. -/
inductive Phase where
  | fresh
  | settingUp
  | streaming
  | fallback
  deriving DecidableEq

/-- State of one connection session: the channel state, the phase, the delays
of the pending `setTimeout` callbacks of `scheduleNextTweet` (one per running
scheduler loop), the number of `Math.random()` calls made so far, and the
effects performed so far, oldest first. -/
structure Session where
  readyState : ReadyState
  phase : Phase
  timers : List JSVal
  pos : ℕ
  effects : List Effect

/-- Process-wide environment: runtime conversions, the stream of
`Math.random()` results and `process.env.TWITTER_BEARER_TOKEN`. -/
structure Env where
  rt : Runtime
  rnd : ℕ → ℚ
  token : Option String

/-- The function `sendSimulatedTweet`. -/
def sendSimulatedTweet (env : Env) (now : String) (s : Session) : Option Session :=
  if s.readyState = ReadyState.OPEN then
    (generateRandomTweet now env.rnd s.pos).map (fun tweet =>
      { s with
        pos := s.pos + 7
        effects := s.effects ++ [Effect.send Origin.simulated (Message.tweet tweet)] })
  else some s

/-- The expression `2000 + Math.random() * 8000` for a draw `r`. -/
def interval (r : ℚ) : JSVal :=
  addNum (.num 2000) (mulNum (.num r) (.num 8000))

/-- The inner function `scheduleNextTweet`: one draw for the interval and one
`setTimeout`. -/
def scheduleNextTweet (env : Env) (s : Session) : Session :=
  let interval := interval (env.rnd s.pos)
  { s with
    pos := s.pos + 1
    timers := s.timers ++ [interval]
    effects := s.effects ++ [Effect.setTimeout interval] }

/-- The function `startSendingSimulatedTweets`. -/
def startSendingSimulatedTweets (env : Env) (now : String) (s : Session) :
    Option Session :=
  (sendSimulatedTweet env now
    { s with effects := s.effects ++ [Effect.startFallback] }).map
    (scheduleNextTweet env)

/-- The callback passed to `setTimeout` by `scheduleNextTweet`. -/
def timerCallback (env : Env) (now : String) (s : Session) : Option Session :=
  (sendSimulatedTweet env now s).map (fun s1 =>
    if s1.readyState = ReadyState.OPEN then scheduleNextTweet env s1 else s1)

/-! ## The connection session -/

/-- ECMAScript white space and line terminators, the characters removed by
`String.prototype.trim`. -/
def isJSWhiteSpace (c : Char) : Bool :=
  let n := c.toNat
  n == 0x09 || n == 0x0A || n == 0x0B || n == 0x0C || n == 0x0D || n == 0x20 ||
  n == 0xA0 || n == 0x1680 || (0x2000 ≤ n && n ≤ 0x200A) || n == 0x2028 ||
  n == 0x2029 || n == 0x202F || n == 0x205F || n == 0x3000 || n == 0xFEFF

/-- The method `String.prototype.trim`. -/
def jsTrim (t : String) : String :=
  String.mk (((t.toList.dropWhile isJSWhiteSpace).reverse.dropWhile
    isJSWhiteSpace).reverse)

/-- The guard
`!process.env.TWITTER_BEARER_TOKEN || process.env.TWITTER_BEARER_TOKEN.trim() === ''`. -/
def noCredential (token : Option String) : Bool :=
  match token with
  | none => true
  | some t => t == "" || jsTrim t == ""

/-- How the awaited upstream calls of `startTwitterStream` turn out; `hadRules`
is the outcome of `rules.data && rules.data.length > 0`. -/
inductive SetupOutcome where
  | rulesFailed
  | deleteFailed
  | addFailed (hadRules : Bool)
  | streamFailed (hadRules : Bool)
  | ok (hadRules : Bool)

/-- Upstream calls made under a setup outcome, in order. -/
def SetupOutcome.calls : SetupOutcome → List UpstreamCall
  | .rulesFailed => [.streamRules]
  | .deleteFailed => [.streamRules, .updateStreamRulesDelete]
  | .addFailed h =>
    [.streamRules] ++ (if h then [.updateStreamRulesDelete] else []) ++
      [.updateStreamRulesAdd]
  | .streamFailed h =>
    [.streamRules] ++ (if h then [.updateStreamRulesDelete] else []) ++
      [.updateStreamRulesAdd, .searchStream]
  | .ok h =>
    [.streamRules] ++ (if h then [.updateStreamRulesDelete] else []) ++
      [.updateStreamRulesAdd, .searchStream]

/-- Whether the setup reached the registration of the stream handlers. -/
def SetupOutcome.succeeded : SetupOutcome → Bool
  | .ok _ => true
  | _ => false

/-- Events of one connection session. -/
inductive Event where
  | connection (now : String)
  | setup (o : SetupOutcome) (now : String)
  | streamData (tweetData : JSVal) (now : String)
  | streamError (now : String)
  | timerTick (i : ℕ) (now : String)
  | channelClosing
  | channelClose

/-- The greeting sent by the connection handler. -/
def greeting : Message := Message.info "info" "Connected to WebSocket server"

/-- The connection handler `wss.on('connection', ...)` with the synchronous part
of `startTwitterStream`. -/
def onConnection (env : Env) (now : String) (s : Session) : Option Session :=
  let s1 := { s with effects := s.effects ++ [Effect.send Origin.greeting greeting] }
  if noCredential env.token then
    startSendingSimulatedTweets env now { s1 with phase := Phase.fallback }
  else some { s1 with phase := Phase.settingUp }

/-- The awaited part of `startTwitterStream`: the upstream calls, then either
the registration of the handlers or the `catch` clause. -/
def onSetup (env : Env) (o : SetupOutcome) (now : String) (s : Session) :
    Option Session :=
  let s1 := { s with effects := s.effects ++ o.calls.map Effect.upstream }
  if o.succeeded then some { s1 with phase := Phase.streaming }
  else startSendingSimulatedTweets env now { s1 with phase := Phase.fallback }

/-- The handler `stream.on('data', ...)`. -/
def onStreamData (env : Env) (tweetData : JSVal) (now : String) (s : Session) :
    Session :=
  if s.readyState ≠ ReadyState.OPEN then s
  else
    match processTweetData env.rt now tweetData with
    | some processedTweet =>
      { s with
        effects := s.effects ++ [Effect.send Origin.live (Message.tweet processedTweet)] }
    | none => s

/-- The handler `stream.on('error', ...)`. -/
def onStreamError (env : Env) (now : String) (s : Session) : Option Session :=
  startSendingSimulatedTweets env now s

/-- The `close` event of the channel: the state becomes `CLOSED`, and the
handler `ws.on('close', ...)`, registered once the stream is set up, closes the
stream. -/
def onChannelClose (s : Session) : Session :=
  let s1 := { s with readyState := ReadyState.CLOSED }
  if s.phase = Phase.streaming then
    { s1 with effects := s1.effects ++ [Effect.streamClose] }
  else s1

/-- One step of the session.  The result is `none` when the event cannot occur
in `s` (no handler or timer for it exists) or when a handler ends by an
exception. -/
def step (env : Env) (s : Session) : Event → Option Session
  | .connection now =>
    if s.phase = Phase.fresh then onConnection env now s else none
  | .setup o now =>
    if s.phase = Phase.settingUp then onSetup env o now s else none
  | .streamData tweetData now =>
    if s.phase = Phase.streaming then some (onStreamData env tweetData now s) else none
  | .streamError now =>
    if s.phase = Phase.streaming then onStreamError env now s else none
  | .timerTick i now =>
    if i < s.timers.length then
      timerCallback env now { s with timers := s.timers.eraseIdx i }
    else none
  | .channelClosing =>
    if s.readyState = ReadyState.OPEN then
      some { s with readyState := ReadyState.CLOSING }
    else none
  | .channelClose =>
    if s.readyState ≠ ReadyState.CLOSED then some (onChannelClose s) else none

/-- Runs a sequence of events. -/
def run (env : Env) (s : Session) : List Event → Option Session
  | [] => some s
  | e :: es => (step env s e).bind (fun s1 => run env s1 es)

/-- The session of a freshly accepted connection. -/
def initialSession : Session :=
  { readyState := ReadyState.OPEN
    phase := Phase.fresh
    timers := []
    pos := 0
    effects := [] }

/-! ## Vocabulary for statements about events -/

/-- The property `v.k` as a value: `undefined` when it cannot be read. -/
def field (v : JSVal) (k : String) : JSVal := (getProp v k).getD .undefined

/-- A value that is missing from an event: `undefined` (no such property) or
JSON `null`. -/
def isAbsent : JSVal → Bool
  | .undefined => true
  | .null => true
  | _ => false

/-- A runtime for concrete evaluations. -/
def sampleRuntime : Runtime :=
  { numToString := fun _ => "0"
    stringToNumber := fun _ => .nan }

/-- Sample event. -/
def sampleEvent : JSVal :=
  obj [("data", obj [("text", str "hello"), ("author_id", str "7"),
      ("entities", obj [("hashtags", arr [obj [("tag", str "geo")], obj [("tag", str "maps")]])])]),
    ("includes", obj [
      ("places", arr [obj [("full_name", str "Null Island"), ("country", str "Nowhere"),
        ("geo", obj [("bbox", arr [num (-10), num 5, num 10, num 15])])]]),
      ("users", arr [obj [("id", str "3"), ("username", str "alice")],
        obj [("id", str "7"), ("username", str "bob")]])])]

/-- A positive double below `2 ^ 1024`: a rational that is an integer multiple of
the unit in the last place of its own magnitude. -/
def OnGrid (b : ℚ) : Prop :=
  0 < b ∧ b < 2 ^ (1024 : ℤ) ∧ ∃ m : ℤ, b = m * 2 ^ ulpExponent b

/-- The value is a number between `lo` and `hi`. -/
def numberWithin (lo hi : ℚ) : JSVal → Bool
  | .num q => decide (lo ≤ q) && decide (q ≤ hi)
  | _ => false

/-- Sample event whose first place carries the bounding box `[0, 100, 0, 100]`. -/
def tallBoxEvent : JSVal :=
  obj [("data", obj [("text", str "hello")]),
    ("includes", obj [
      ("places", arr [obj [("full_name", str "Far North"),
        ("geo", obj [("bbox", arr [num 0, num 100, num 0, num 100])])]])])]

/-- Sample event whose first place carries the bounding box `[0.1, 0.7, 0.2, 0.1]`:
each entry is the double nearest to the decimal. -/
def roundingEvent : JSVal :=
  obj [("data", obj [("text", str "hello")]),
    ("includes", obj [
      ("places", arr [obj [("full_name", str "Gulf of Guinea"),
        ("geo", obj [("bbox", arr [num (3602879701896397 / 2 ^ 55),
          num (3152519739159347 / 2 ^ 52), num (3602879701896397 / 2 ^ 54),
          num (3602879701896397 / 2 ^ 55)])])]])])]

/-- Sample event without `author_id` whose author list is `[0]`. -/
def zeroUserEvent : JSVal :=
  obj [("data", obj [("text", str "hello")]),
    ("includes", obj [
      ("places", arr [obj [("geo", obj [("bbox", arr [num 0, num 0, num 0, num 0])])]]),
      ("users", arr [num 0])])]

/-- Sample event without `author_id` whose only listed user has no `id`. -/
def idlessUserEvent : JSVal :=
  obj [("data", obj [("text", str "hello")]),
    ("includes", obj [
      ("places", arr [obj [("geo", obj [("bbox", arr [num 0, num 0, num 0, num 0])])]]),
      ("users", arr [obj [("username", str "bob")]])])]

/-- Sample event whose first place has no `geo`. -/
def noBoxEvent : JSVal :=
  obj [("data", obj [("text", str "hello")]),
    ("includes", obj [("places", arr [obj [("full_name", str "Somewhere")]])])]

/-- Events that concern a running scheduler loop: timer ticks and changes of the
channel state. -/
def Event.isSchedulerEvent : Event → Bool
  | .timerTick _ _ => true
  | .channelClosing => true
  | .channelClose => true
  | _ => false

/-- Timer ticks. -/
def Event.isTick : Event → Bool
  | .timerTick _ _ => true
  | _ => false

/-- All pending timers and all `setTimeout` effects of a session carry a delay
that is a number in `[2000, 10000]`. -/
def delaysWithin (s : Session) : Prop :=
  (∀ d ∈ s.timers, numberWithin 2000 10000 d = true) ∧
    ∀ d, Effect.setTimeout d ∈ s.effects → numberWithin 2000 10000 d = true

/-- A sample environment: every draw is `1/2`, and a bearer token is configured. -/
def sampleEnv : Env :=
  { rt := sampleRuntime
    rnd := fun _ => 1 / 2
    token := some "sample-token" }

/-- A sample environment whose every draw is `1 - 2 ^ (-53)`, the largest double
below `1`. -/
def lastDrawEnv : Env :=
  { rt := sampleRuntime
    rnd := fun _ => 1 - 1 / 2 ^ 53
    token := some "sample-token" }

/-- Effects that are calls on the upstream client. -/
def Effect.isUpstream : Effect → Bool
  | .upstream _ => true
  | _ => false

/-- A sample environment without credential: every draw is `1/2`. -/
def sampleEnvNoToken : Env :=
  { rt := sampleRuntime
    rnd := fun _ => 1 / 2
    token := none }

/-- Sends made by the `data` handler of the stream. -/
def Effect.isLive : Effect → Bool
  | .send .live _ => true
  | _ => false

/-- Entries into `startSendingSimulatedTweets`. -/
def Effect.isStartFallback : Effect → Bool
  | .startFallback => true
  | _ => false

/-- The fallback scheduler has been started at least once. -/
def fallbackStarted (es : List Effect) : Bool :=
  es.any Effect.isStartFallback

/-- Some live-normalized record was sent after a start of the fallback
scheduler. -/
def liveAfterFallback : List Effect → Bool
  | [] => false
  | e :: rest => (e.isStartFallback && rest.any Effect.isLive) || liveAfterFallback rest

/-- Events raised by the upstream stream. -/
def Event.isStreamEvent : Event → Bool
  | .streamData _ _ => true
  | .streamError _ => true
  | _ => false

/-- The stream raises no event after its first error event. -/
def errorTerminal : List Event → Bool
  | [] => true
  | .streamError _ :: es => es.all (fun e => !e.isStreamEvent)
  | _ :: es => errorTerminal es

/-- Invariant of a session along runs in which the first stream error is the last
stream event. -/
def SingleMechanism (s : Session) : Prop :=
  s.timers.length ≤ 1 ∧ liveAfterFallback s.effects = false ∧
    (fallbackStarted s.effects = false → s.timers = []) ∧
    ((s.phase = Phase.fresh ∨ s.phase = Phase.settingUp) →
      fallbackStarted s.effects = false)

/-- The events still to come respect `errorTerminal`, given what has happened. -/
def traceAllowed (s : Session) (evs : List Event) : Prop :=
  if s.phase = Phase.streaming ∧ fallbackStarted s.effects = true then
    evs.all (fun e => !e.isStreamEvent) = true
  else errorTerminal evs = true

/-- The session of `sampleEnv` after the connection event and a successful setup
that found no existing rules. -/
def streamingSession : Session :=
  { readyState := ReadyState.OPEN
    phase := Phase.streaming
    timers := []
    pos := 0
    effects := [Effect.send Origin.greeting greeting,
      Effect.upstream UpstreamCall.streamRules,
      Effect.upstream UpstreamCall.updateStreamRulesAdd,
      Effect.upstream UpstreamCall.searchStream] }

/-! # Theorems -/

/-! ## Rounding to the nearest double -/

theorem floor_le_roundHalfEven (x : ℚ) : ⌊x⌋ ≤ roundHalfEven x := by
  unfold roundHalfEven
  simp only
  split_ifs <;> omega

theorem roundHalfEven_le_floor_succ (x : ℚ) : roundHalfEven x ≤ ⌊x⌋ + 1 := by
  unfold roundHalfEven
  simp only
  split_ifs <;> omega

theorem roundHalfEven_intCast (k : ℤ) : roundHalfEven (k : ℚ) = k := by
  unfold roundHalfEven
  simp

theorem roundHalfEven_le {x : ℚ} {k : ℤ} (h : x ≤ k) : roundHalfEven x ≤ k := by
  rcases eq_or_lt_of_le h with h | h
  · rw [h, roundHalfEven_intCast]
  · have hf : ⌊x⌋ < k := Int.floor_lt.mpr h
    have := roundHalfEven_le_floor_succ x
    omega

theorem le_roundHalfEven {x : ℚ} {k : ℤ} (h : (k : ℚ) ≤ x) : k ≤ roundHalfEven x := by
  have hf : k ≤ ⌊x⌋ := Int.le_floor.mpr h
  have := floor_le_roundHalfEven x
  omega

theorem roundHalfEven_down {x : ℚ} (f : ℤ) (h1 : (f : ℚ) ≤ x) (h2 : x - f < 1 / 2) :
    roundHalfEven x = f := by
  have hf : ⌊x⌋ = f := Int.floor_eq_iff.mpr ⟨h1, by linarith⟩
  unfold roundHalfEven
  simp only [hf, h2, if_true]

theorem roundHalfEven_up {x : ℚ} (f : ℤ) (h1 : 1 / 2 < x - f) (h2 : x < f + 1) :
    roundHalfEven x = f + 1 := by
  have hf : ⌊x⌋ = f := Int.floor_eq_iff.mpr ⟨by linarith, h2⟩
  unfold roundHalfEven
  simp only [hf]
  rw [if_neg (by linarith), if_pos h1]

theorem roundHalfEven_tie_even {x : ℚ} (f : ℤ) (h1 : x = f + 1 / 2) (h2 : f % 2 = 0) :
    roundHalfEven x = f := by
  have hf : ⌊x⌋ = f := Int.floor_eq_iff.mpr ⟨by linarith, by linarith⟩
  unfold roundHalfEven
  simp only [hf]
  rw [if_neg (by linarith), if_neg (by linarith), if_pos h2]

theorem roundHalfEven_tie_odd {x : ℚ} (f : ℤ) (h1 : x = f + 1 / 2) (h2 : f % 2 = 1) :
    roundHalfEven x = f + 1 := by
  have hf : ⌊x⌋ = f := Int.floor_eq_iff.mpr ⟨by linarith, by linarith⟩
  unfold roundHalfEven
  simp only [hf]
  rw [if_neg (by linarith), if_neg (by linarith), if_neg (by omega)]

theorem ulpExponent_eq {a : ℚ} (e : ℤ) (h1 : (2 : ℚ) ^ e ≤ a) (h2 : a < (2 : ℚ) ^ (e + 1)) :
    ulpExponent a = max e (-1022) - 52 := by
  have ha : 0 < a := lt_of_lt_of_le (by positivity) h1
  have hle : e ≤ Int.log 2 a := (Int.zpow_le_iff_le_log (by norm_num) ha).mp (by exact_mod_cast h1)
  have hlt : Int.log 2 a < e + 1 := (Int.lt_zpow_iff_log_lt (by norm_num) ha).mp (by exact_mod_cast h2)
  have : Int.log 2 a = e := by omega
  rw [ulpExponent, this]

theorem ulpExponent_mono {a b : ℚ} (ha : 0 < a) (h : a ≤ b) : ulpExponent a ≤ ulpExponent b := by
  have := Int.log_mono_right (b := 2) ha h
  unfold ulpExponent
  omega

theorem roundDouble_eq {q : ℚ} (e m : ℤ) (hq : q ≠ 0) (h1 : (2 : ℚ) ^ e ≤ |q|)
    (h2 : |q| < (2 : ℚ) ^ (e + 1))
    (hm : roundHalfEven (q / 2 ^ (max e (-1022) - 52)) = m)
    (hfin : |(m : ℚ) * 2 ^ (max e (-1022) - 52)| < 2 ^ (1024 : ℤ)) :
    roundDouble q = JSVal.num ((m : ℚ) * 2 ^ (max e (-1022) - 52)) := by
  unfold roundDouble
  rw [if_neg hq, ulpExponent_eq e h1 h2]
  simp only [hm]
  rw [if_neg (not_le.mpr hfin)]

theorem onGrid_of {b : ℚ} (e m : ℤ) (h1 : (2 : ℚ) ^ e ≤ b) (h2 : b < (2 : ℚ) ^ (e + 1))
    (hmax : b < 2 ^ (1024 : ℤ)) (hm : b = m * 2 ^ (max e (-1022) - 52)) : OnGrid b := by
  refine ⟨lt_of_lt_of_le (by positivity) h1, hmax, m, ?_⟩
  rw [ulpExponent_eq e h1 h2]
  exact hm

theorem grid_multiple {b : ℚ} (hb : OnGrid b) {p : ℤ} (hp : p ≤ ulpExponent b) :
    ∃ k : ℤ, b = k * 2 ^ p := by
  obtain ⟨-, -, m, hm⟩ := hb
  obtain ⟨n, hn⟩ := Int.eq_ofNat_of_zero_le (sub_nonneg.mpr hp)
  refine ⟨m * 2 ^ n, ?_⟩
  have hu : ulpExponent b = p + n := by omega
  have h2 : (2 : ℚ) ^ ulpExponent b = 2 ^ p * 2 ^ n := by
    rw [hu, zpow_add₀ (by norm_num), zpow_natCast]
  rw [h2] at hm
  rw [hm]
  push_cast
  ring


theorem roundDouble_zero : roundDouble 0 = JSVal.num 0 := by
  simp [roundDouble]

theorem roundDouble_nonneg_le {x b : ℚ} (hb : OnGrid b) (h0 : 0 ≤ x) (hx : x ≤ b) :
    ∃ y, roundDouble x = JSVal.num y ∧ 0 ≤ y ∧ y ≤ b := by
  rcases eq_or_lt_of_le h0 with h | h
  · rw [← h, roundDouble_zero]
    exact ⟨0, rfl, le_refl _, le_of_lt hb.1⟩
  · have habs : |x| = x := abs_of_pos h
    obtain ⟨k, hk⟩ := grid_multiple hb (ulpExponent_mono h hx)
    have hpos : (0 : ℚ) < 2 ^ ulpExponent x := by positivity
    have hle : roundHalfEven (x / 2 ^ ulpExponent x) ≤ k := by
      apply roundHalfEven_le
      rw [div_le_iff₀ hpos, ← hk]
      exact hx
    have hge : (0 : ℤ) ≤ roundHalfEven (x / 2 ^ ulpExponent x) := by
      apply le_roundHalfEven
      simp only [Int.cast_zero]
      positivity
    have hr0 : (0 : ℚ) ≤ (roundHalfEven (x / 2 ^ ulpExponent x) : ℚ) * 2 ^ ulpExponent x := by
      have : (0 : ℚ) ≤ (roundHalfEven (x / 2 ^ ulpExponent x) : ℚ) := by exact_mod_cast hge
      positivity
    have hrb : (roundHalfEven (x / 2 ^ ulpExponent x) : ℚ) * 2 ^ ulpExponent x ≤ b := by
      rw [hk]
      have : (roundHalfEven (x / 2 ^ ulpExponent x) : ℚ) ≤ k := by exact_mod_cast hle
      exact mul_le_mul_of_nonneg_right this (le_of_lt hpos)
    refine ⟨_, ?_, hr0, hrb⟩
    unfold roundDouble
    rw [if_neg (ne_of_gt h), habs]
    simp only
    rw [if_neg]
    rw [abs_of_nonneg hr0]
    exact not_le.mpr (lt_of_le_of_lt hrb hb.2.1)

theorem roundDouble_nonpos_ge {x b : ℚ} (hb : OnGrid b) (h0 : x ≤ 0) (hx : -b ≤ x) :
    ∃ y, roundDouble x = JSVal.num y ∧ -b ≤ y ∧ y ≤ 0 := by
  rcases eq_or_lt_of_le h0 with h | h
  · rw [h, roundDouble_zero]
    exact ⟨0, rfl, by linarith [hb.1], le_refl _⟩
  · have habs : |x| = -x := abs_of_neg h
    have hxpos : 0 < -x := by linarith
    obtain ⟨k, hk⟩ := grid_multiple hb (ulpExponent_mono hxpos (by linarith))
    have hpos : (0 : ℚ) < 2 ^ ulpExponent (-x) := by positivity
    have hge : -k ≤ roundHalfEven (x / 2 ^ ulpExponent (-x)) := by
      apply le_roundHalfEven
      rw [le_div_iff₀ hpos]
      push_cast
      rw [neg_mul, ← hk]
      exact hx
    have hle : roundHalfEven (x / 2 ^ ulpExponent (-x)) ≤ (0 : ℤ) := by
      apply roundHalfEven_le
      simp only [Int.cast_zero]
      exact le_of_lt (div_neg_of_neg_of_pos h hpos)
    have hr0 : (roundHalfEven (x / 2 ^ ulpExponent (-x)) : ℚ) * 2 ^ ulpExponent (-x) ≤ 0 := by
      have : (roundHalfEven (x / 2 ^ ulpExponent (-x)) : ℚ) ≤ 0 := by exact_mod_cast hle
      exact mul_nonpos_of_nonpos_of_nonneg this (le_of_lt hpos)
    have hrb : -b ≤ (roundHalfEven (x / 2 ^ ulpExponent (-x)) : ℚ) * 2 ^ ulpExponent (-x) := by
      rw [hk, ← neg_mul]
      have : ((-k : ℤ) : ℚ) ≤ (roundHalfEven (x / 2 ^ ulpExponent (-x)) : ℚ) := by
        exact_mod_cast hge
      push_cast at this
      exact mul_le_mul_of_nonneg_right this (le_of_lt hpos)
    refine ⟨_, ?_, hrb, hr0⟩
    unfold roundDouble
    rw [if_neg (ne_of_lt h), habs]
    simp only
    rw [if_neg]
    rw [abs_of_nonpos hr0]
    exact not_le.mpr (by linarith [hb.2.1])

theorem roundDouble_abs_le {x b : ℚ} (hb : OnGrid b) (h1 : -b ≤ x) (h2 : x ≤ b) :
    ∃ y, roundDouble x = JSVal.num y ∧ -b ≤ y ∧ y ≤ b := by
  rcases le_total 0 x with h | h
  · obtain ⟨y, hy, hy0, hyb⟩ := roundDouble_nonneg_le hb h h2
    exact ⟨y, hy, by linarith [hb.1], hyb⟩
  · obtain ⟨y, hy, hyb, hy0⟩ := roundDouble_nonpos_ge hb h h1
    exact ⟨y, hy, hyb, by linarith [hb.1]⟩


theorem roundDouble_pos_form {x b : ℚ} (hb : OnGrid b) (h0 : 0 < x) (hx : x ≤ b) :
    roundDouble x =
      JSVal.num ((roundHalfEven (x / 2 ^ ulpExponent x) : ℚ) * 2 ^ ulpExponent x) := by
  have habs : |x| = x := abs_of_pos h0
  obtain ⟨k, hk⟩ := grid_multiple hb (ulpExponent_mono h0 hx)
  have hpos : (0 : ℚ) < 2 ^ ulpExponent x := by positivity
  have hle : roundHalfEven (x / 2 ^ ulpExponent x) ≤ k := by
    apply roundHalfEven_le
    rw [div_le_iff₀ hpos, ← hk]
    exact hx
  have hge : (0 : ℤ) ≤ roundHalfEven (x / 2 ^ ulpExponent x) := by
    apply le_roundHalfEven
    simp only [Int.cast_zero]
    positivity
  have hr0 : (0 : ℚ) ≤ (roundHalfEven (x / 2 ^ ulpExponent x) : ℚ) * 2 ^ ulpExponent x := by
    have : (0 : ℚ) ≤ (roundHalfEven (x / 2 ^ ulpExponent x) : ℚ) := by exact_mod_cast hge
    positivity
  have hrb : (roundHalfEven (x / 2 ^ ulpExponent x) : ℚ) * 2 ^ ulpExponent x ≤ b := by
    rw [hk]
    have : (roundHalfEven (x / 2 ^ ulpExponent x) : ℚ) ≤ k := by exact_mod_cast hle
    exact mul_le_mul_of_nonneg_right this (le_of_lt hpos)
  unfold roundDouble
  rw [if_neg (ne_of_gt h0), habs]
  simp only
  rw [if_neg]
  rw [abs_of_nonneg hr0]
  exact not_le.mpr (lt_of_le_of_lt hrb hb.2.1)

theorem roundDouble_between {a x b : ℚ} (ha : OnGrid a) (hb : OnGrid b) (h1 : a ≤ x)
    (h2 : x ≤ b) : ∃ y, roundDouble x = JSVal.num y ∧ a ≤ y ∧ y ≤ b := by
  have hx0 : 0 < x := lt_of_lt_of_le ha.1 h1
  obtain ⟨y, hy, -, hyb⟩ := roundDouble_nonneg_le hb (le_of_lt hx0) h2
  refine ⟨y, hy, ?_, hyb⟩
  rw [roundDouble_pos_form hb hx0 h2, JSVal.num.injEq] at hy
  rw [← hy]
  have hpos : (0 : ℚ) < 2 ^ ulpExponent x := by positivity
  have hmono := ulpExponent_mono ha.1 h1
  rcases eq_or_lt_of_le hmono with heq | hlt
  · obtain ⟨-, -, m, hm⟩ := ha
    rw [heq] at hm
    have hge : m ≤ roundHalfEven (x / 2 ^ ulpExponent x) := by
      apply le_roundHalfEven
      rw [le_div_iff₀ hpos, ← hm]
      exact h1
    have : (m : ℚ) ≤ (roundHalfEven (x / 2 ^ ulpExponent x) : ℚ) := by exact_mod_cast hge
    calc a = m * 2 ^ ulpExponent x := hm
      _ ≤ _ := mul_le_mul_of_nonneg_right this (le_of_lt hpos)
  · have hlogx : ulpExponent x = Int.log 2 x - 52 := by
      unfold ulpExponent at hlt ⊢
      omega
    have hloga : Int.log 2 a + 1 ≤ Int.log 2 x := by
      unfold ulpExponent at hlt
      omega
    have hxe : (2 : ℚ) ^ Int.log 2 x ≤ x := by
      have := Int.zpow_log_le_self (b := 2) (r := x) (by norm_num) hx0
      exact_mod_cast this
    have hsplit : (2 : ℚ) ^ Int.log 2 x = 2 ^ (52 : ℕ) * 2 ^ ulpExponent x := by
      rw [hlogx, ← zpow_natCast, ← zpow_add₀ (by norm_num)]
      congr 1
      omega
    have hge : ((2 ^ 52 : ℕ) : ℤ) ≤ roundHalfEven (x / 2 ^ ulpExponent x) := by
      apply le_roundHalfEven
      rw [le_div_iff₀ hpos]
      have hc : (((2 ^ 52 : ℕ) : ℤ) : ℚ) = (2 : ℚ) ^ (52 : ℕ) := by norm_num
      rw [hc, ← hsplit]
      exact hxe
    have hcast : ((2 : ℚ) ^ (52 : ℕ)) ≤ (roundHalfEven (x / 2 ^ ulpExponent x) : ℚ) := by
      exact_mod_cast hge
    have halt : a < (2 : ℚ) ^ (Int.log 2 a + 1) := by
      have := Int.lt_zpow_succ_log_self (b := 2) (by norm_num) a
      exact_mod_cast this
    have hpow : (2 : ℚ) ^ (Int.log 2 a + 1) ≤ 2 ^ Int.log 2 x :=
      zpow_le_zpow_right₀ (by norm_num) hloga
    calc a ≤ 2 ^ Int.log 2 x := le_of_lt (lt_of_lt_of_le halt hpow)
      _ = 2 ^ (52 : ℕ) * 2 ^ ulpExponent x := hsplit
      _ ≤ _ := mul_le_mul_of_nonneg_right hcast (le_of_lt hpos)

theorem onGrid_8000 : OnGrid 8000 :=
  onGrid_of 12 (8000 * 2 ^ 40) (by norm_num) (by norm_num) (by norm_num) (by norm_num)

theorem onGrid_10000 : OnGrid 10000 :=
  onGrid_of 13 (10000 * 2 ^ 39) (by norm_num) (by norm_num) (by norm_num) (by norm_num)

theorem onGrid_2000 : OnGrid 2000 :=
  onGrid_of 10 (2000 * 2 ^ 42) (by norm_num) (by norm_num) (by norm_num) (by norm_num)

theorem roundDouble_pred_8000 :
    roundDouble ((1 - 1 / 2 ^ 53) * 8000) = JSVal.num (8000 - 1 / 2 ^ 40) := by
  have h := roundDouble_eq (q := (1 - 1 / 2 ^ 53) * 8000) 12 (8000 * 2 ^ 40 - 1)
    (by norm_num) (by rw [abs_of_pos (by norm_num)]; norm_num)
    (by rw [abs_of_pos (by norm_num)]; norm_num)
    (roundHalfEven_down _ (by norm_num) (by norm_num))
    (by rw [abs_of_pos (by norm_num)]; norm_num)
  rw [h]
  norm_num

theorem roundDouble_tie_10000 :
    roundDouble (2000 + (8000 - 1 / 2 ^ 40)) = JSVal.num 10000 := by
  have h := roundDouble_eq (q := 2000 + (8000 - 1 / 2 ^ 40)) 13 (10000 * 2 ^ 39)
    (by norm_num) (by rw [abs_of_pos (by norm_num)]; norm_num)
    (by rw [abs_of_pos (by norm_num)]; norm_num)
    (by
      have := roundHalfEven_tie_odd (x := (2000 + (8000 - 1 / 2 ^ 40)) / 2 ^ (max 13 (-1022) - 52 : ℤ))
        (10000 * 2 ^ 39 - 1) (by norm_num) (by norm_num)
      rw [this]; norm_num)
    (by rw [abs_of_pos (by norm_num)]; norm_num)
  rw [h]
  norm_num

theorem roundDouble_of_onGrid {b : ℚ} (hb : OnGrid b) : roundDouble b = JSVal.num b := by
  rw [roundDouble_pos_form hb hb.1 (le_refl b)]
  obtain ⟨-, -, m, hm⟩ := hb
  have hpos : (0 : ℚ) < 2 ^ ulpExponent b := by positivity
  have hdiv : b / 2 ^ ulpExponent b = m := by
    rw [div_eq_iff (ne_of_gt hpos)]
    exact hm
  rw [hdiv, roundHalfEven_intCast, ← hm]

theorem toNumber_roundDouble (rt : Runtime) (q : ℚ) :
    toNumber rt (roundDouble q) = roundDouble q := by
  unfold roundDouble
  dsimp only
  split_ifs <;> rfl

theorem onGrid_10 : OnGrid 10 :=
  onGrid_of 3 (10 * 2 ^ 49) (by norm_num) (by norm_num) (by norm_num) (by norm_num)

theorem onGrid_20 : OnGrid 20 :=
  onGrid_of 4 (20 * 2 ^ 48) (by norm_num) (by norm_num) (by norm_num) (by norm_num)

theorem onGrid_90 : OnGrid 90 :=
  onGrid_of 6 (90 * 2 ^ 46) (by norm_num) (by norm_num) (by norm_num) (by norm_num)

theorem onGrid_100 : OnGrid 100 :=
  onGrid_of 6 (100 * 2 ^ 46) (by norm_num) (by norm_num) (by norm_num) (by norm_num)

theorem onGrid_180 : OnGrid 180 :=
  onGrid_of 7 (180 * 2 ^ 45) (by norm_num) (by norm_num) (by norm_num) (by norm_num)

theorem onGrid_200 : OnGrid 200 :=
  onGrid_of 7 (200 * 2 ^ 45) (by norm_num) (by norm_num) (by norm_num) (by norm_num)

theorem onGrid_360 : OnGrid 360 :=
  onGrid_of 8 (360 * 2 ^ 44) (by norm_num) (by norm_num) (by norm_num) (by norm_num)

theorem onGrid_4000 : OnGrid 4000 :=
  onGrid_of 11 (4000 * 2 ^ 41) (by norm_num) (by norm_num) (by norm_num) (by norm_num)

theorem onGrid_6000 : OnGrid 6000 :=
  onGrid_of 12 (6000 * 2 ^ 40) (by norm_num) (by norm_num) (by norm_num) (by norm_num)

theorem half_sum_within {c b : ℚ} (hc : OnGrid c) (hb : OnGrid b) (hcb : c = 2 * b)
    {x : ℚ} (h1 : -c ≤ x) (h2 : x ≤ c) :
    ∃ z, halfNum (roundDouble x) = JSVal.num z ∧ -b ≤ z ∧ z ≤ b := by
  obtain ⟨y, hy, hy1, hy2⟩ := roundDouble_abs_le hc h1 h2
  rw [hy]
  exact roundDouble_abs_le hb (by linarith) (by linarith)


/-! ## The normalizer `processTweetData` -/

theorem truthy_of_isAbsent {v : JSVal} (h : isAbsent v = true) : truthy v = false := by
  cases v <;> simp_all [isAbsent, truthy]

theorem field_eq_of_getProp {v w : JSVal} {k : String} (h : getProp v k = some w) :
    field v k = w := by
  simp [field, h]

theorem processTweetData_inv (rt : Runtime) (now : String) (td : JSVal) (r : TweetRecord)
    (hr : processTweetData rt now td = some r) :
    ∃ tweet includes pl users len place user geo bbox lon lat hashtags,
      getProp td "data" = some tweet ∧ truthy tweet = true ∧
      getProp td "includes" = some includes ∧ truthy includes = true ∧
      getProp includes "places" = some pl ∧ getProp includes "users" = some users ∧
      truthy pl = true ∧ getProp pl "length" = some len ∧
      strictEq len (JSVal.num 0) = false ∧ getIndex pl 0 = some place ∧
      findUser tweet users = some user ∧ hasBBox place = some true ∧
      getProp place "geo" = some geo ∧ getProp geo "bbox" = some bbox ∧
      midpoint rt bbox 0 2 = some lon ∧ midpoint rt bbox 1 3 = some lat ∧
      extractHashtags tweet = some hashtags ∧
      buildRecord rt now tweet place user lat lon hashtags = some r := by
  unfold processTweetData at hr
  cases hb : processTweetDataBody rt now td with
  | none => simp [hb] at hr
  | some res =>
    simp only [hb] at hr
    subst hr
    unfold processTweetDataBody at hb
    simp only [Option.bind_eq_some] at hb
    obtain ⟨tweet, h1, hb⟩ := hb
    split at hb
    · simp at hb
    rename_i ht
    simp only [Option.bind_eq_some] at hb
    obtain ⟨includes, h2, hb⟩ := hb
    split at hb
    · simp at hb
    rename_i hi
    unfold processIncludes at hb
    simp only [Option.bind_eq_some] at hb
    obtain ⟨pl, h3, users, h4, hb⟩ := hb
    split at hb
    · simp at hb
    rename_i hp
    simp only [Option.bind_eq_some] at hb
    obtain ⟨len, h5, hb⟩ := hb
    split at hb
    · simp at hb
    rename_i hlen
    simp only [Option.bind_eq_some] at hb
    obtain ⟨place, h6, hb⟩ := hb
    unfold processPlace at hb
    simp only [Option.bind_eq_some] at hb
    obtain ⟨user, h7, ok, h8, hb⟩ := hb
    split at hb
    · rename_i hok
      subst hok
      simp only [Option.bind_eq_some, Option.map_eq_some'] at hb
      obtain ⟨geo, h9, bbox, h10, lon, h11, lat, h12, hashtags, h13, r', h14, h15⟩ := hb
      simp at h15
      subst h15
      exact ⟨tweet, includes, pl, users, len, place, user, geo, bbox, lon, lat, hashtags,
        h1, by simpa using ht, h2, by simpa using hi, h3, h4, by simpa using hp, h5, by simpa using hlen, h6, h7, h8, h9, h10, h11, h12, h13, h14⟩
    · simp at hb

/-- Claim C1.  An event that lacks the post payload, lacks the include-lists, has
an absent or empty list of places, or whose first place has no `geo` or no
`geo.bbox`, makes `processTweetData` return `null`. -/
theorem processTweetData_skips (rt : Runtime) (now : String) (td : JSVal)
    (h : isAbsent (field td "data") = true ∨
      isAbsent (field td "includes") = true ∨
      isAbsent (field (field td "includes") "places") = true ∨
      field (field td "includes") "places" = JSVal.arr [] ∨
      ∃ place rest, field (field td "includes") "places" = JSVal.arr (place :: rest) ∧
        (isAbsent (field place "geo") = true ∨
          isAbsent (field (field place "geo") "bbox") = true)) :
    processTweetData rt now td = none := by
  cases hr : processTweetData rt now td with
  | none => rfl
  | some r =>
    exfalso
    obtain ⟨tweet, includes, pl, users, len, place, user, geo, bbox, lon, lat, hashtags,
      h1, ht, h2, hi, h3, h4, hp, h5, hlen, h6, h7, h8, h9, h10, -⟩ :=
      processTweetData_inv rt now td r hr
    rw [field_eq_of_getProp h2, field_eq_of_getProp h1, field_eq_of_getProp h3] at h
    rcases h with h | h | h | h | ⟨place', rest, hpl, h⟩
    · rw [truthy_of_isAbsent h] at ht; cases ht
    · rw [truthy_of_isAbsent h] at hi; cases hi
    · rw [truthy_of_isAbsent h] at hp; cases hp
    · subst h
      simp only [getProp, if_true, Option.some.injEq] at h5
      subst h5
      simp [strictEq] at hlen
    · subst hpl
      simp only [getIndex, List.getD_cons_zero, Option.some.injEq] at h6
      subst h6
      rw [field_eq_of_getProp h9, field_eq_of_getProp h10] at h
      rcases h with h | h
      · simp [hasBBox, h9, h10, truthy_of_isAbsent h] at h8
      · simp [hasBBox, h9, h10, truthy_of_isAbsent h] at h8

theorem buildRecord_fields {rt : Runtime} {now : String} {tweet place user lat lon : JSVal}
    {hashtags : List JSVal} {r : TweetRecord}
    (h : buildRecord rt now tweet place user lat lon hashtags = some r) :
    r.lat = lat ∧ r.lon = lon ∧ r.hashtags = hashtags ∧
      r.trending = decide (hashtags.length > 0) ∧
      formatUsername rt user = some r.username := by
  unfold buildRecord at h
  simp only [Option.bind_eq_some] at h
  obtain ⟨text, -, username, hu, fullName, -, country, -, timestamp, -, h⟩ := h
  simp only [Option.some.injEq] at h
  subst h
  exact ⟨rfl, rfl, rfl, rfl, hu⟩

theorem midpoint_num (rt : Runtime) (xs : List JSVal) (i j : ℕ) (a b : ℚ)
    (hi : xs.getD i JSVal.undefined = JSVal.num a)
    (hj : xs.getD j JSVal.undefined = JSVal.num b) :
    midpoint rt (JSVal.arr xs) i j = some (halfNum (roundDouble (a + b))) := by
  simp only [midpoint, getIndex, hi, hj, Option.bind_some]
  have hadd : jsAdd rt (JSVal.num a) (JSVal.num b) = roundDouble (a + b) := by
    simp [jsAdd, toPrimitive, isStr, toNumber, addNum]
  show some (jsDiv2 rt (jsAdd rt (JSVal.num a) (JSVal.num b))) = _
  rw [hadd, jsDiv2, toNumber_roundDouble]

theorem record_midpoint (rt : Runtime) (now : String) (td : JSVal)
    (r : TweetRecord) (place : JSVal) (rest more : List JSVal) (w s e n : ℚ)
    (hplace : field (field td "includes") "places" = JSVal.arr (place :: rest))
    (hbox : field (field place "geo") "bbox" =
      JSVal.arr (JSVal.num w :: JSVal.num s :: JSVal.num e :: JSVal.num n :: more))
    (hr : processTweetData rt now td = some r) :
    r.lon = halfNum (roundDouble (w + e)) ∧ r.lat = halfNum (roundDouble (s + n)) := by
  obtain ⟨tweet, includes, pl, users, len, place', user, geo, bbox, lon, lat, hashtags,
    h1, ht, h2, hi, h3, h4, hp, h5, hlen, h6, h7, h8, h9, h10, h11, h12, h13, h14⟩ :=
    processTweetData_inv rt now td r hr
  rw [field_eq_of_getProp h2, field_eq_of_getProp h3] at hplace
  subst hplace
  simp only [getIndex, List.getD_cons_zero, Option.some.injEq] at h6
  subst h6
  rw [field_eq_of_getProp h9, field_eq_of_getProp h10] at hbox
  subst hbox
  rw [midpoint_num rt (JSVal.num w :: JSVal.num s :: JSVal.num e :: JSVal.num n :: more) 0 2 w e rfl rfl] at h11
  rw [midpoint_num rt (JSVal.num w :: JSVal.num s :: JSVal.num e :: JSVal.num n :: more) 1 3 s n rfl rfl] at h12
  obtain ⟨hlat, hlon, -⟩ := buildRecord_fields h14
  simp only [Option.some.injEq] at h11 h12
  exact ⟨by rw [hlon, ← h11], by rw [hlat, ← h12]⟩

theorem halfNum_exact {x : ℚ} (h1 : roundDouble x = JSVal.num x)
    (h2 : roundDouble (x / 2) = JSVal.num (x / 2)) :
    halfNum (roundDouble x) = JSVal.num (x / 2) := by
  rw [h1, halfNum, h2]

/-- Claim C2, amended.  Whenever `processTweetData` returns a record and the first
included place carries the bounding box `[west, south, east, north]`, the record
has `lon = (west + east) / 2` and `lat = (south + north) / 2` as computed in
double arithmetic: the sum rounded to the nearest double, then halved and rounded.
These are the exact midpoints whenever the sum and its half are doubles; for the
box `[-10, 5, 10, 15]` this is `lon = 0` and `lat = 10`. -/
theorem processTweetData_midpoint (rt : Runtime) (now : String) (td : JSVal)
    (r : TweetRecord) (place : JSVal) (rest more : List JSVal) (w s e n : ℚ)
    (hplace : field (field td "includes") "places" = JSVal.arr (place :: rest))
    (hbox : field (field place "geo") "bbox" =
      JSVal.arr (JSVal.num w :: JSVal.num s :: JSVal.num e :: JSVal.num n :: more))
    (hr : processTweetData rt now td = some r) :
    r.lon = halfNum (roundDouble (w + e)) ∧ r.lat = halfNum (roundDouble (s + n)) ∧
      (roundDouble (w + e) = JSVal.num (w + e) →
        roundDouble ((w + e) / 2) = JSVal.num ((w + e) / 2) →
        r.lon = JSVal.num ((w + e) / 2)) ∧
      (roundDouble (s + n) = JSVal.num (s + n) →
        roundDouble ((s + n) / 2) = JSVal.num ((s + n) / 2) →
        r.lat = JSVal.num ((s + n) / 2)) ∧
      (w = -10 → s = 5 → e = 10 → n = 15 →
        r.lon = JSVal.num 0 ∧ r.lat = JSVal.num 10) := by
  obtain ⟨hlon, hlat⟩ := record_midpoint rt now td r place rest more w s e n hplace hbox hr
  refine ⟨hlon, hlat, ?_, ?_, ?_⟩
  · intro h1 h2
    rw [hlon, halfNum_exact h1 h2]
  · intro h1 h2
    rw [hlat, halfNum_exact h1 h2]
  · intro hw hs he hn
    subst hw hs he hn
    have e0 : ((-10 : ℚ) + 10) = 0 := by norm_num
    have e20 : ((5 : ℚ) + 15) = 20 := by norm_num
    have e10 : ((20 : ℚ) / 2) = 10 := by norm_num
    have z0 : ((0 : ℚ) / 2) = 0 := by norm_num
    rw [hlon, hlat, e0, e20, roundDouble_zero, roundDouble_of_onGrid onGrid_20]
    simp only [halfNum]
    rw [e10, z0, roundDouble_zero, roundDouble_of_onGrid onGrid_10]
    exact ⟨rfl, rfl⟩

/-- Witness for `processTweetData_midpoint`: the sample event carries the box
`[-10, 5, 10, 15]`. -/
theorem processTweetData_midpoint_witness :
    ∃ r, processTweetData sampleRuntime "t" sampleEvent = some r ∧
      r.lon = JSVal.num 0 ∧ r.lat = JSVal.num 10 :=
  ⟨_, rfl, (processTweetData_midpoint sampleRuntime "t" sampleEvent _ _ [] [] (-10) 5 10 15
    rfl rfl rfl).2.2.2.2 rfl rfl rfl rfl⟩

theorem roundDouble_sum_tenth_fifth :
    roundDouble (3602879701896397 / 2 ^ 55 + 3602879701896397 / 2 ^ 54) =
      JSVal.num (1351079888211149 / 2 ^ 52) := by
  have h := roundDouble_eq
    (q := 3602879701896397 / 2 ^ 55 + 3602879701896397 / 2 ^ 54) (-2) 5404319552844596
    (by norm_num) (by rw [abs_of_pos (by norm_num)]; norm_num)
    (by rw [abs_of_pos (by norm_num)]; norm_num)
    (by
      have := roundHalfEven_tie_odd
        (x := (3602879701896397 / 2 ^ 55 + 3602879701896397 / 2 ^ 54) /
          2 ^ (max (-2) (-1022) - 52 : ℤ))
        5404319552844595 (by norm_num) (by norm_num)
      rw [this]; norm_num)
    (by rw [abs_of_pos (by norm_num)]; norm_num)
  rw [h]
  norm_num

theorem roundDouble_half_of_sum :
    roundDouble (1351079888211149 / 2 ^ 52 / 2) = JSVal.num (1351079888211149 / 2 ^ 53) := by
  have h := roundDouble_eq (q := 1351079888211149 / 2 ^ 52 / 2) (-3) 5404319552844596
    (by norm_num) (by rw [abs_of_pos (by norm_num)]; norm_num)
    (by rw [abs_of_pos (by norm_num)]; norm_num)
    (roundHalfEven_down _ (by norm_num) (by norm_num))
    (by rw [abs_of_pos (by norm_num)]; norm_num)
  rw [h]
  norm_num

/-- Counterexample to claim C2 as stated: for the bounding box
`[0.1, 0.7, 0.2, 0.1]`, whose entries are the doubles nearest to these decimals,
`processTweetData` returns `lon = 0.15000000000000002`, the double
`1351079888211149 / 2 ^ 53`, which is not the midpoint of west and east. -/
theorem processTweetData_midpoint_rounds :
    ∃ r, processTweetData sampleRuntime "t" roundingEvent = some r ∧
      r.lon = JSVal.num (1351079888211149 / 2 ^ 53) ∧
      r.lon ≠ JSVal.num ((3602879701896397 / 2 ^ 55 + 3602879701896397 / 2 ^ 54) / 2) := by
  obtain ⟨hlon, -⟩ := record_midpoint sampleRuntime "t" roundingEvent _ _ [] []
    (3602879701896397 / 2 ^ 55) (3152519739159347 / 2 ^ 52)
    (3602879701896397 / 2 ^ 54) (3602879701896397 / 2 ^ 55) rfl rfl rfl
  rw [roundDouble_sum_tenth_fifth] at hlon
  simp only [halfNum] at hlon
  rw [roundDouble_half_of_sum] at hlon
  refine ⟨_, rfl, hlon, ?_⟩
  rw [hlon]
  intro h
  rw [JSVal.num.injEq] at h
  norm_num at h

/-- Counterexample to claim C7 as stated: for the bounding box `[0, 100, 0, 100]`
`processTweetData` returns a record whose `lat` is `100`, outside `[-90, 90]`. -/
theorem processTweetData_lat_out_of_range :
    ∃ r, processTweetData sampleRuntime "t" tallBoxEvent = some r ∧
      r.lat = JSVal.num 100 ∧ numberWithin (-90) 90 r.lat = false := by
  obtain ⟨-, h⟩ := record_midpoint sampleRuntime "t" tallBoxEvent _ _ [] []
    0 100 0 100 rfl rfl rfl
  have e200 : ((100 : ℚ) + 100) = 200 := by norm_num
  have e100 : ((200 : ℚ) / 2) = 100 := by norm_num
  rw [e200, roundDouble_of_onGrid onGrid_200] at h
  simp only [halfNum] at h
  rw [e100, roundDouble_of_onGrid onGrid_100] at h
  refine ⟨_, rfl, h, ?_⟩
  rw [h]
  simp [numberWithin]
  norm_num

/-- Claim C7, amended.  Whenever `processTweetData` returns a record and the
first four entries of the first place's bounding box are numbers with west and
east in `[-180, 180]` and south and north in `[-90, 90]`, the record's `lat` is a
number in `[-90, 90]` and its `lon` a number in `[-180, 180]`. -/
theorem processTweetData_coordinates_in_range (rt : Runtime) (now : String) (td : JSVal)
    (r : TweetRecord) (place : JSVal) (rest more : List JSVal) (w s e n : ℚ)
    (hplace : field (field td "includes") "places" = JSVal.arr (place :: rest))
    (hbox : field (field place "geo") "bbox" =
      JSVal.arr (JSVal.num w :: JSVal.num s :: JSVal.num e :: JSVal.num n :: more))
    (hw : -180 ≤ w ∧ w ≤ 180) (he : -180 ≤ e ∧ e ≤ 180)
    (hs : -90 ≤ s ∧ s ≤ 90) (hn : -90 ≤ n ∧ n ≤ 90)
    (hr : processTweetData rt now td = some r) :
    numberWithin (-90) 90 r.lat = true ∧ numberWithin (-180) 180 r.lon = true := by
  obtain ⟨hlon, hlat⟩ := record_midpoint rt now td r place rest more w s e n
    hplace hbox hr
  obtain ⟨x, hx, hx1, hx2⟩ := half_sum_within onGrid_360 onGrid_180 (by norm_num)
    (x := w + e) (by linarith [hw.1, he.1]) (by linarith [hw.2, he.2])
  obtain ⟨y, hy, hy1, hy2⟩ := half_sum_within onGrid_180 onGrid_90 (by norm_num)
    (x := s + n) (by linarith [hs.1, hn.1]) (by linarith [hs.2, hn.2])
  rw [hlon, hlat, hx, hy]
  simp only [numberWithin, Bool.and_eq_true, decide_eq_true_eq]
  exact ⟨⟨hy1, hy2⟩, ⟨hx1, hx2⟩⟩

/-- Witness for `processTweetData_coordinates_in_range` on the sample event. -/
theorem processTweetData_coordinates_in_range_witness :
    ∃ r, processTweetData sampleRuntime "t" sampleEvent = some r ∧
      numberWithin (-90) 90 r.lat = true ∧ numberWithin (-180) 180 r.lon = true :=
  ⟨_, rfl, processTweetData_coordinates_in_range sampleRuntime "t" sampleEvent _ _ [] []
    (-10) 5 10 15 rfl rfl (by norm_num) (by norm_num) (by norm_num) (by norm_num) rfl⟩

theorem getProp_isSome_of_truthy {v : JSVal} (k : String) (h : truthy v = true) :
    getProp v k = some (field v k) := by
  cases v <;> simp_all [truthy, getProp, field]

theorem obj_of_field_arr {v : JSVal} {k : String} {xs : List JSVal}
    (h : field v k = JSVal.arr xs) : ∃ fields, v = JSVal.obj fields := by
  cases v with
  | obj fields => exact ⟨fields, rfl⟩
  | arr ys => simp only [field, getProp] at h; split at h <;> simp at h
  | str s => simp only [field, getProp] at h; split at h <;> simp at h
  | _ => simp [field, getProp] at h

theorem mapM_tag {xs hs : List JSVal}
    (h : xs.mapM (fun tag => getProp tag "tag") = some hs) :
    hs = xs.map (fun tag => field tag "tag") := by
  induction xs generalizing hs with
  | nil =>
    simp only [List.mapM_nil, Option.pure_def, Option.some.injEq] at h
    simp [← h]
  | cons x xs ih =>
    simp only [List.mapM_cons, Option.bind_eq_bind, Option.bind_eq_some, Option.pure_def,
      Option.some.injEq] at h
    obtain ⟨y, hy, ys, hys, rfl⟩ := h
    rw [List.map_cons, ← ih hys, field_eq_of_getProp hy]

theorem extractHashtags_spec {tweet : JSVal} {hs : List JSVal}
    (h : extractHashtags tweet = some hs) :
    (∀ tags, field (field tweet "entities") "hashtags" = JSVal.arr tags →
        hs = tags.map (fun tag => field tag "tag")) ∧
      (isAbsent (field tweet "entities") = true ∨
        isAbsent (field (field tweet "entities") "hashtags") = true → hs = []) := by
  unfold extractHashtags at h
  simp only [Option.bind_eq_some] at h
  obtain ⟨ent, he, h⟩ := h
  rw [field_eq_of_getProp he]
  by_cases hte : truthy ent = true
  · rw [if_pos hte, Option.bind_eq_some] at h
    obtain ⟨hv, hh, h⟩ := h
    rw [field_eq_of_getProp hh]
    by_cases hth : truthy hv = true
    · rw [if_pos hth] at h
      constructor
      · intro tags htags
        subst htags
        exact mapM_tag h
      · rintro (ha | ha)
        · rw [truthy_of_isAbsent ha] at hte; cases hte
        · rw [truthy_of_isAbsent ha] at hth; cases hth
    · rw [if_neg hth, Option.some.injEq] at h
      subst h
      constructor
      · intro tags htags
        subst htags
        simp [truthy] at hth
      · intro _; rfl
  · rw [if_neg hte, Option.some.injEq] at h
    subst h
    constructor
    · intro tags htags
      obtain ⟨fields, rfl⟩ := obj_of_field_arr htags
      simp [truthy] at hte
    · intro _; rfl

/-- Claim C9.  In every record returned by `processTweetData`, `hashtags` is the
list of the `tag` fields of the post's `entities.hashtags` in their order, or the
empty list when the post has no `entities` or no `entities.hashtags`, and
`trending` is true exactly when `hashtags` is non-empty. -/
theorem processTweetData_hashtags (rt : Runtime) (now : String) (td : JSVal)
    (r : TweetRecord) (hr : processTweetData rt now td = some r) :
    (∀ tags, field (field (field td "data") "entities") "hashtags" = JSVal.arr tags →
        r.hashtags = tags.map (fun tag => field tag "tag")) ∧
      (isAbsent (field (field td "data") "entities") = true ∨
        isAbsent (field (field (field td "data") "entities") "hashtags") = true →
        r.hashtags = []) ∧
      (r.trending = true ↔ r.hashtags ≠ []) := by
  obtain ⟨tweet, includes, pl, users, len, place', user, geo, bbox, lon, lat, hashtags,
    h1, ht, h2, hi, h3, h4, hp, h5, hlen, h6, h7, h8, h9, h10, h11, h12, h13, h14⟩ :=
    processTweetData_inv rt now td r hr
  obtain ⟨-, -, hh, htr, -⟩ := buildRecord_fields h14
  rw [field_eq_of_getProp h1, hh, htr]
  obtain ⟨ha, hb⟩ := extractHashtags_spec h13
  refine ⟨ha, hb, ?_⟩
  simp [List.length_pos]

/-- Witness for `processTweetData_hashtags` on the sample event. -/
theorem processTweetData_hashtags_witness :
    ∃ r, processTweetData sampleRuntime "t" sampleEvent = some r ∧
      r.hashtags = [JSVal.str "geo", JSVal.str "maps"] ∧ r.trending = true :=
  ⟨_, rfl, (processTweetData_hashtags sampleRuntime "t" sampleEvent _ rfl).1 _ rfl, rfl⟩

theorem strictEq_eq {a b : JSVal} (h : strictEq a b = true) : a = b := by
  cases a <;> cases b <;> simp_all [strictEq]

theorem obj_of_field_ne_undefined {v : JSVal} {k : String} (hk : k ≠ "length")
    (h : field v k ≠ JSVal.undefined) : ∃ fields, v = JSVal.obj fields := by
  cases v with
  | obj fields => exact ⟨fields, rfl⟩
  | _ => simp [field, getProp, hk] at h

theorem callFind_go_none_match {pred : JSVal → Option Bool} {us : List JSVal} {user : JSVal}
    (h : callFind.go pred us = some user) (hno : ∀ u ∈ us, pred u ≠ some true) :
    user = JSVal.undefined := by
  induction us with
  | nil => simp [callFind.go] at h; exact h.symm
  | cons x xs ih =>
    unfold callFind.go at h
    have hx := hno x (List.mem_cons_self _ _)
    cases hp : pred x with
    | none => simp [hp] at h
    | some b =>
      cases b with
      | true => exact absurd hp hx
      | false =>
        simp only [hp] at h
        exact ih h (fun u hu => hno u (List.mem_cons_of_mem _ hu))

theorem callFind_go_first_match {pred : JSVal → Option Bool} {pre post : List JSVal}
    {u user : JSVal} (h : callFind.go pred (pre ++ u :: post) = some user)
    (hno : ∀ v ∈ pre, pred v ≠ some true) (hu : pred u ≠ some false) : user = u := by
  induction pre with
  | nil =>
    simp only [List.nil_append] at h
    unfold callFind.go at h
    cases hp : pred u with
    | none => simp [hp] at h
    | some b =>
      cases b with
      | true => simp only [hp, Option.some.injEq] at h; exact h.symm
      | false => exact absurd hp hu
  | cons x xs ih =>
    simp only [List.cons_append] at h
    unfold callFind.go at h
    have hx := hno x (List.mem_cons_self _ _)
    cases hp : pred x with
    | none => simp [hp] at h
    | some b =>
      cases b with
      | true => exact absurd hp hx
      | false =>
        simp only [hp] at h
        exact ih h (fun v hv => hno v (List.mem_cons_of_mem _ hv))

theorem idPred_eq {tweet u : JSVal} {b : Bool} (ht : truthy tweet = true)
    (h : ((getProp u "id").bind (fun uid =>
      (getProp tweet "author_id").bind (fun aid => some (strictEq uid aid)))) = some b) :
    b = strictEq (field u "id") (field tweet "author_id") := by
  rw [getProp_isSome_of_truthy "author_id" ht] at h
  simp only [Option.bind_eq_some, Option.some.injEq] at h
  obtain ⟨uid, hu, a, ha, rfl⟩ := h
  rw [field_eq_of_getProp hu, ha]

/-- Claim C3, amended.  Whenever `processTweetData` returns a record for a post that
carries an `author_id`: if the author list is absent, or no entry of it has an
`id` strictly equal to the post's `author_id`, the `username` is `"unknown"`;
otherwise it is `"@"` followed by the string form of the `username` of the first
entry whose `id` equals the post's `author_id`. -/
theorem processTweetData_username (rt : Runtime) (now : String) (td : JSVal) (r : TweetRecord)
    (hr : processTweetData rt now td = some r)
    (haid : field (field td "data") "author_id" ≠ JSVal.undefined) :
    (isAbsent (field (field td "includes") "users") = true →
        r.username = JSVal.str "unknown") ∧
      (∀ us, field (field td "includes") "users" = JSVal.arr us →
        (∀ u ∈ us, strictEq (field u "id") (field (field td "data") "author_id") = false) →
        r.username = JSVal.str "unknown") ∧
      (∀ pre u post, field (field td "includes") "users" = JSVal.arr (pre ++ u :: post) →
        (∀ v ∈ pre, strictEq (field v "id") (field (field td "data") "author_id") = false) →
        strictEq (field u "id") (field (field td "data") "author_id") = true →
        r.username = JSVal.str ("@" ++ toStr rt (field u "username"))) := by
  obtain ⟨tweet, includes, pl, users, len, place', user, geo, bbox, lon, lat, hashtags,
    h1, ht, h2, hi, h3, h4, hp, h5, hlen, h6, h7, h8, h9, h10, h11, h12, h13, h14⟩ :=
    processTweetData_inv rt now td r hr
  obtain ⟨-, -, -, -, hname⟩ := buildRecord_fields h14
  rw [field_eq_of_getProp h1] at haid ⊢
  rw [field_eq_of_getProp h2, field_eq_of_getProp h4]
  refine ⟨?_, ?_, ?_⟩
  · intro ha
    simp only [findUser, truthy_of_isAbsent ha, Bool.false_eq_true, if_false,
      Option.some.injEq] at h7
    subst h7
    simp only [formatUsername, truthy, Bool.false_eq_true, if_false, Option.some.injEq] at hname
    exact hname.symm
  · intro us hus hno
    subst hus
    simp only [findUser, truthy, if_true, callFind] at h7
    have := callFind_go_none_match h7 (fun u hu hpu => by
      have := idPred_eq ht hpu
      rw [hno u hu] at this
      cases this)
    subst this
    simp only [formatUsername, truthy, Bool.false_eq_true, if_false, Option.some.injEq] at hname
    exact hname.symm
  · intro pre u post hus hno hu
    subst hus
    simp only [findUser, truthy, if_true, callFind] at h7
    have := callFind_go_first_match h7 (fun v hv hpv => by
      have := idPred_eq ht hpv
      rw [hno v hv] at this
      cases this) (fun hpu => by
      have := idPred_eq ht hpu
      rw [hu] at this
      cases this)
    subst this
    have hne : field user "id" ≠ JSVal.undefined := by
      rw [strictEq_eq hu]; exact haid
    obtain ⟨fields, rfl⟩ := obj_of_field_ne_undefined (by decide) hne
    simp only [formatUsername, truthy, if_true, getProp, Option.map_some',
      Option.some.injEq] at hname
    rw [← hname]
    simp [field, getProp]

/-- Witness for `processTweetData_username` on the sample event, whose second
user carries the author id. -/
theorem processTweetData_username_witness :
    ∃ r, processTweetData sampleRuntime "t" sampleEvent = some r ∧
      r.username = JSVal.str "@bob" :=
  ⟨_, rfl, (processTweetData_username sampleRuntime "t" sampleEvent _ rfl
    (by intro h; cases h)).2.2
    [obj [("id", str "3"), ("username", str "alice")]]
    (obj [("id", str "7"), ("username", str "bob")]) [] rfl
    (by intro v hv; simp only [List.mem_singleton] at hv; subst hv; rfl) rfl⟩

/-- Counterexample to claim C3 as stated, on posts without `author_id`.  With the
author list `[0]` the entry's `id` is strictly equal to the post's `author_id`
(both `undefined`), yet the `username` is `"unknown"`.  With a single listed user
that has no `id`, neither an `id` nor an `author_id` exists, yet the `username`
is `"@bob"`. -/
theorem processTweetData_username_without_author_id :
    (∃ r, processTweetData sampleRuntime "t" zeroUserEvent = some r ∧
      field (field zeroUserEvent "includes") "users" = JSVal.arr [JSVal.num 0] ∧
      strictEq (field (JSVal.num 0) "id")
        (field (field zeroUserEvent "data") "author_id") = true ∧
      r.username = JSVal.str "unknown") ∧
    (∃ r, processTweetData sampleRuntime "t" idlessUserEvent = some r ∧
      field (field idlessUserEvent "includes") "users" =
        JSVal.arr [obj [("username", str "bob")]] ∧
      field (obj [("username", str "bob")]) "id" = JSVal.undefined ∧
      field (field idlessUserEvent "data") "author_id" = JSVal.undefined ∧
      r.username = JSVal.str "@bob") :=
  ⟨⟨_, rfl, rfl, rfl, rfl⟩, ⟨_, rfl, rfl, rfl, rfl, rfl⟩⟩

/-- Witness for `processTweetData_skips`: the first place of the event has no `geo`. -/
theorem processTweetData_skips_witness :
    isAbsent (field (obj [("full_name", str "Somewhere")]) "geo") = true ∧
      processTweetData sampleRuntime "t" noBoxEvent = none :=
  ⟨rfl, processTweetData_skips sampleRuntime "t" noBoxEvent
    (Or.inr (Or.inr (Or.inr (Or.inr ⟨_, _, rfl, Or.inl rfl⟩))))⟩

/-! ## The synthetic generator `generateRandomTweet` -/

theorem pick_mem (xs : List String) (r : ℚ) (hxs : xs ≠ []) (h0 : 0 ≤ r) (h1 : r < 1) :
    ∃ s ∈ xs, pick xs r = JSVal.str s := by
  have hlen : (0 : ℚ) < (xs.length : ℚ) := by
    have := List.length_pos.mpr hxs
    exact_mod_cast this
  have hi0 : (0 : ℤ) ≤ ⌊r * (xs.length : ℚ)⌋ := Int.floor_nonneg.mpr (by positivity)
  have hi1 : ⌊r * (xs.length : ℚ)⌋ < (xs.length : ℤ) := by
    rw [Int.floor_lt]
    push_cast
    nlinarith
  have hlt : (⌊r * (xs.length : ℚ)⌋).toNat < xs.length := by omega
  refine ⟨xs.get ⟨_, hlt⟩, List.get_mem _ _ _, ?_⟩
  simp only [pick, hi0, if_true, List.get?_eq_get hlt]

theorem generateRandomTweet_eq (now : String) (rnd : ℕ → ℚ) (k : ℕ)
    (hrnd : ∀ i, 0 ≤ rnd i ∧ rnd i < 1) :
    ∃ t ∈ tweetTexts, ∃ r, generateRandomTweet now rnd k = some r ∧
      r.lat = JSVal.num (rnd k * 180 - 90) ∧ r.lon = JSVal.num (rnd (k + 1) * 360 - 180) ∧
      r.hashtags = ((hashtagMatches t).map (fun tag => tag.drop 1)).map JSVal.str ∧
      r.trending = (decide (rnd (k + 4) < 1 / 5) ||
        decide (((hashtagMatches t).map (fun tag => tag.drop 1)).length > 0)) := by
  obtain ⟨t, ht, hpick⟩ := pick_mem tweetTexts (rnd (k + 2)) (by simp [tweetTexts])
    (hrnd _).1 (hrnd _).2
  refine ⟨t, ht, ?_⟩
  simp only [generateRandomTweet, hpick]
  exact ⟨_, rfl, rfl, rfl, rfl, rfl⟩

/-- Claim C4.  For draws in `[0, 1)`, `generateRandomTweet` returns a record with
`lat` in `[-90, 90]`, `lon` in `[-180, 180]`, a `hashtags` list made of strings,
and `trending` true whenever `hashtags` is non-empty. -/
theorem generateRandomTweet_contract (now : String) (rnd : ℕ → ℚ) (k : ℕ)
    (hrnd : ∀ i, 0 ≤ rnd i ∧ rnd i < 1) :
    ∃ r, generateRandomTweet now rnd k = some r ∧
      numberWithin (-90) 90 r.lat = true ∧ numberWithin (-180) 180 r.lon = true ∧
      (∀ h ∈ r.hashtags, isStr h = true) ∧
      (r.hashtags ≠ [] → r.trending = true) := by
  obtain ⟨t, -, r, hr, hlat, hlon, htags, htr⟩ := generateRandomTweet_eq now rnd k hrnd
  refine ⟨r, hr, ?_, ?_, ?_, ?_⟩
  · rw [hlat]
    simp only [numberWithin, Bool.and_eq_true, decide_eq_true_eq]
    constructor <;> linarith [(hrnd k).1, (hrnd k).2]
  · rw [hlon]
    simp only [numberWithin, Bool.and_eq_true, decide_eq_true_eq]
    constructor <;> linarith [(hrnd (k + 1)).1, (hrnd (k + 1)).2]
  · intro h hh
    rw [htags, List.mem_map] at hh
    obtain ⟨s, -, rfl⟩ := hh
    rfl
  · intro hne
    rw [htr]
    rw [htags] at hne
    have : ((hashtagMatches t).map (fun tag => tag.drop 1)).length > 0 := by
      rw [gt_iff_lt, List.length_pos]
      intro h0
      rw [h0] at hne
      exact hne rfl
    rw [decide_eq_true this, Bool.or_true]

/-- Witness for `generateRandomTweet_contract` with every draw equal to `1/2`. -/
theorem generateRandomTweet_contract_witness :
    ∃ r, generateRandomTweet "t" (fun _ => 1 / 2) 0 = some r ∧
      numberWithin (-90) 90 r.lat = true ∧ numberWithin (-180) 180 r.lon = true ∧
      (∀ h ∈ r.hashtags, isStr h = true) ∧
      (r.hashtags ≠ [] → r.trending = true) :=
  generateRandomTweet_contract "t" (fun _ => 1 / 2) 0 (fun _ => by norm_num)

theorem tweetTexts_two_hashtags :
    ∀ t ∈ tweetTexts, (hashtagMatches t).length = 2 ∧
      ∀ h ∈ (hashtagMatches t).map (fun tag => tag.drop 1), '#' ∉ h.toList := by
  decide

/-- Claim C10.  For draws in `[0, 1)`, `generateRandomTweet` returns a record with
`trending = true` and exactly two hashtags, none containing `#`: each of the ten
sample texts has exactly two matches of the hashtag pattern, so the draw compared
with `0.2` does not affect `trending`. -/
theorem generateRandomTweet_always_trending (now : String) (rnd : ℕ → ℚ) (k : ℕ)
    (hrnd : ∀ i, 0 ≤ rnd i ∧ rnd i < 1) :
    (∀ t ∈ tweetTexts, (hashtagMatches t).length = 2) ∧
      ∃ r, generateRandomTweet now rnd k = some r ∧ r.trending = true ∧
        r.hashtags.length = 2 ∧
        ∀ h ∈ r.hashtags, ∃ s, h = JSVal.str s ∧ '#' ∉ s.toList := by
  refine ⟨fun t ht => (tweetTexts_two_hashtags t ht).1, ?_⟩
  obtain ⟨t, ht, r, hr, -, -, htags, htr⟩ := generateRandomTweet_eq now rnd k hrnd
  obtain ⟨h2, hno⟩ := tweetTexts_two_hashtags t ht
  refine ⟨r, hr, ?_, ?_, ?_⟩
  · rw [htr]
    simp [h2]
  · rw [htags]
    simp [h2]
  · intro h hh
    rw [htags, List.mem_map] at hh
    obtain ⟨s, hs, rfl⟩ := hh
    exact ⟨s, rfl, hno s hs⟩

/-- Witness for `generateRandomTweet_always_trending` with every draw equal to
`9/10`, above the threshold `0.2`. -/
theorem generateRandomTweet_always_trending_witness :
    ∃ r, generateRandomTweet "t" (fun _ => 9 / 10) 0 = some r ∧ r.trending = true ∧
      r.hashtags.length = 2 :=
  let ⟨r, hr, ht, hl, _⟩ :=
    (generateRandomTweet_always_trending "t" (fun _ => 9 / 10) 0 (fun _ => by norm_num)).2
  ⟨r, hr, ht, hl⟩

/-! ## The fallback scheduler -/

theorem sendSimulatedTweet_open (env : Env) (hrnd : ∀ i, 0 ≤ env.rnd i ∧ env.rnd i < 1)
    (now : String) (s : Session) (h : s.readyState = ReadyState.OPEN) :
    ∃ r, generateRandomTweet now env.rnd s.pos = some r ∧
      sendSimulatedTweet env now s = some { s with
        pos := s.pos + 7
        effects := s.effects ++ [Effect.send Origin.simulated (Message.tweet r)] } := by
  obtain ⟨t, -, r, hr, -⟩ := generateRandomTweet_eq now env.rnd s.pos hrnd
  exact ⟨r, hr, by simp [sendSimulatedTweet, h, hr]⟩

theorem sendSimulatedTweet_not_open (env : Env) (now : String) (s : Session)
    (h : s.readyState ≠ ReadyState.OPEN) : sendSimulatedTweet env now s = some s := by
  simp [sendSimulatedTweet, h]

theorem sendSimulatedTweet_spec {env : Env} {now : String} {s s' : Session}
    (h : sendSimulatedTweet env now s = some s') :
    s'.readyState = s.readyState ∧ s'.phase = s.phase ∧ s'.timers = s.timers ∧
      (s'.effects = s.effects ∨
        ∃ r, s'.effects = s.effects ++ [Effect.send Origin.simulated (Message.tweet r)]) := by
  unfold sendSimulatedTweet at h
  split at h
  · simp only [Option.map_eq_some'] at h
    obtain ⟨r, -, rfl⟩ := h
    exact ⟨rfl, rfl, rfl, Or.inr ⟨r, rfl⟩⟩
  · simp only [Option.some.injEq] at h
    subst h
    exact ⟨rfl, rfl, rfl, Or.inl rfl⟩

theorem interval_within {r : ℚ} (h0 : 0 ≤ r) (h1 : r < 1) :
    numberWithin 2000 10000 (interval r) = true := by
  obtain ⟨y, hy, hy0, hy1⟩ := roundDouble_nonneg_le onGrid_8000 (x := r * 8000)
    (by positivity) (by linarith)
  obtain ⟨z, hz, hz0, hz1⟩ := roundDouble_between onGrid_2000 onGrid_10000
    (x := 2000 + y) (by linarith) (by linarith)
  simp only [interval, mulNum, hy, addNum, hz, numberWithin, Bool.and_eq_true,
    decide_eq_true_eq]
  exact ⟨hz0, hz1⟩

theorem interval_range (env : Env) (hrnd : ∀ i, 0 ≤ env.rnd i ∧ env.rnd i < 1) (p : ℕ) :
    numberWithin 2000 10000 (interval (env.rnd p)) = true :=
  interval_within (hrnd p).1 (hrnd p).2

theorem interval_half : interval (1 / 2) = JSVal.num 6000 := by
  have e1 : ((1 : ℚ) / 2 * 8000) = 4000 := by norm_num
  have e2 : ((2000 : ℚ) + 4000) = 6000 := by norm_num
  simp only [interval, mulNum]
  rw [e1, roundDouble_of_onGrid onGrid_4000]
  simp only [addNum]
  rw [e2, roundDouble_of_onGrid onGrid_6000]

theorem interval_last_draw : interval (1 - 1 / 2 ^ 53) = JSVal.num 10000 := by
  simp only [interval, mulNum]
  rw [roundDouble_pred_8000]
  simp only [addNum]
  rw [roundDouble_tie_10000]

theorem startSendingSimulatedTweets_spec {env : Env} {now : String} {s s' : Session}
    (h : startSendingSimulatedTweets env now s = some s') :
    s'.readyState = s.readyState ∧ s'.phase = s.phase ∧
      ∃ sends p, (sends = [] ∨ ∃ r, sends = [Effect.send Origin.simulated (Message.tweet r)]) ∧
        s'.timers = s.timers ++ [interval (env.rnd p)] ∧
        s'.effects = s.effects ++
          (Effect.startFallback :: sends ++ [Effect.setTimeout (interval (env.rnd p))]) := by
  unfold startSendingSimulatedTweets at h
  simp only [Option.map_eq_some'] at h
  obtain ⟨s1, h1, rfl⟩ := h
  obtain ⟨hr, hp, ht, he⟩ := sendSimulatedTweet_spec h1
  refine ⟨hr, hp, ?_⟩
  rcases he with he | ⟨r, he⟩
  · exact ⟨[], s1.pos, Or.inl rfl, by simp [scheduleNextTweet, ht], by
      simp [scheduleNextTweet, he]⟩
  · exact ⟨_, s1.pos, Or.inr ⟨r, rfl⟩, by simp [scheduleNextTweet, ht], by
      simp [scheduleNextTweet, he]⟩

theorem timerCallback_spec {env : Env} {now : String} {s s' : Session}
    (h : timerCallback env now s = some s') :
    s'.readyState = s.readyState ∧ s'.phase = s.phase ∧
      ∃ sends, (sends = [] ∨ ∃ r, sends = [Effect.send Origin.simulated (Message.tweet r)]) ∧
        ((s'.timers = s.timers ∧ s'.effects = s.effects ++ sends) ∨
          ∃ p, s'.timers = s.timers ++ [interval (env.rnd p)] ∧
            s'.effects = s.effects ++
              (sends ++ [Effect.setTimeout (interval (env.rnd p))])) := by
  unfold timerCallback at h
  simp only [Option.map_eq_some'] at h
  obtain ⟨s1, h1, rfl⟩ := h
  obtain ⟨hr, hp, ht, he⟩ := sendSimulatedTweet_spec h1
  have hsends : ∃ sends,
      (sends = [] ∨ ∃ r, sends = [Effect.send Origin.simulated (Message.tweet r)]) ∧
        s1.effects = s.effects ++ sends := by
    rcases he with he | ⟨r, he⟩
    · exact ⟨[], Or.inl rfl, by simp [he]⟩
    · exact ⟨_, Or.inr ⟨r, rfl⟩, he⟩
  obtain ⟨sends, hs, he'⟩ := hsends
  split
  · refine ⟨hr, hp, sends, hs, Or.inr ⟨s1.pos, ?_, ?_⟩⟩
    · simp [scheduleNextTweet, ht]
    · simp [scheduleNextTweet, he']
  · exact ⟨hr, hp, sends, hs, Or.inl ⟨ht, he'⟩⟩

theorem delaysWithin_of_added {s s' : Session} (h : delaysWithin s)
    (ht : ∀ d ∈ s'.timers, d ∈ s.timers ∨ numberWithin 2000 10000 d = true)
    (he : ∀ d, Effect.setTimeout d ∈ s'.effects →
      Effect.setTimeout d ∈ s.effects ∨ numberWithin 2000 10000 d = true) :
    delaysWithin s' := by
  constructor
  · intro d hd
    rcases ht d hd with h1 | h1
    · exact h.1 d h1
    · exact h1
  · intro d hd
    rcases he d hd with h1 | h1
    · exact h.2 d h1
    · exact h1

theorem delaysWithin_startSending {env : Env} (hrnd : ∀ i, 0 ≤ env.rnd i ∧ env.rnd i < 1)
    {now : String} {s s' : Session} (h : delaysWithin s)
    (hs : startSendingSimulatedTweets env now s = some s') : delaysWithin s' := by
  obtain ⟨-, -, sends, p, hsends, ht, he⟩ := startSendingSimulatedTweets_spec hs
  apply delaysWithin_of_added h
  · intro d hd
    rw [ht, List.mem_append, List.mem_singleton] at hd
    rcases hd with hd | rfl
    · exact Or.inl hd
    · exact Or.inr (interval_range env hrnd p)
  · intro d hd
    rw [he] at hd
    rcases hsends with rfl | ⟨r, rfl⟩ <;>
      simp only [List.mem_append, List.mem_cons, List.mem_singleton, List.nil_append,
        List.cons_append, Effect.setTimeout.injEq, List.not_mem_nil, or_false, false_or,
        reduceCtorEq] at hd
    · rcases hd with hd | rfl
      · exact Or.inl hd
      · exact Or.inr (interval_range env hrnd p)
    · rcases hd with hd | rfl
      · exact Or.inl hd
      · exact Or.inr (interval_range env hrnd p)

theorem delaysWithin_timerCallback {env : Env} (hrnd : ∀ i, 0 ≤ env.rnd i ∧ env.rnd i < 1)
    {now : String} {s s' : Session} (h : delaysWithin s)
    (hs : timerCallback env now s = some s') : delaysWithin s' := by
  obtain ⟨-, -, sends, hsends, hcase⟩ := timerCallback_spec hs
  apply delaysWithin_of_added h
  · intro d hd
    rcases hcase with ⟨ht, -⟩ | ⟨p, ht, -⟩
    · rw [ht] at hd; exact Or.inl hd
    · rw [ht, List.mem_append, List.mem_singleton] at hd
      rcases hd with hd | rfl
      · exact Or.inl hd
      · exact Or.inr (interval_range env hrnd p)
  · intro d hd
    rcases hcase with ⟨-, he⟩ | ⟨p, -, he⟩
    · rw [he] at hd
      rcases hsends with rfl | ⟨r, rfl⟩ <;>
        simp only [List.mem_append, List.mem_singleton, List.not_mem_nil, or_false,
          reduceCtorEq] at hd
      · exact Or.inl hd
      · exact Or.inl hd
    · rw [he] at hd
      rcases hsends with rfl | ⟨r, rfl⟩ <;>
        simp only [List.mem_append, List.mem_cons, List.mem_singleton, List.nil_append,
          List.cons_append, Effect.setTimeout.injEq, List.not_mem_nil, or_false, false_or,
          reduceCtorEq] at hd
      · rcases hd with hd | rfl
        · exact Or.inl hd
        · exact Or.inr (interval_range env hrnd p)
      · rcases hd with hd | rfl
        · exact Or.inl hd
        · exact Or.inr (interval_range env hrnd p)

theorem delaysWithin_congr {s s' : Session} (h : delaysWithin s)
    (ht : ∀ d ∈ s'.timers, d ∈ s.timers)
    (he : ∀ d, Effect.setTimeout d ∈ s'.effects → Effect.setTimeout d ∈ s.effects) :
    delaysWithin s' :=
  delaysWithin_of_added h (fun d hd => Or.inl (ht d hd)) (fun d hd => Or.inl (he d hd))

theorem delaysWithin_step {env : Env} (hrnd : ∀ i, 0 ≤ env.rnd i ∧ env.rnd i < 1)
    {s s' : Session} {e : Event} (h : delaysWithin s) (hs : step env s e = some s') :
    delaysWithin s' := by
  cases e with
  | connection now =>
    simp only [step] at hs
    split at hs
    · unfold onConnection at hs
      split at hs
      · refine delaysWithin_startSending hrnd ?_ hs
        exact delaysWithin_congr h (fun d hd => hd) (fun d hd => by
          simpa using hd)
      · simp only [Option.some.injEq] at hs
        subst hs
        exact delaysWithin_congr h (fun d hd => hd) (fun d hd => by
          simpa using hd)
    · cases hs
  | setup o now =>
    simp only [step] at hs
    split at hs
    · unfold onSetup at hs
      split at hs
      · simp only [Option.some.injEq] at hs
        subst hs
        exact delaysWithin_congr h (fun d hd => hd) (fun d hd => by
          simpa using hd)
      · refine delaysWithin_startSending hrnd ?_ hs
        exact delaysWithin_congr h (fun d hd => hd) (fun d hd => by
          simpa using hd)
    · cases hs
  | streamData td now =>
    simp only [step] at hs
    split at hs
    · simp only [Option.some.injEq] at hs
      subst hs
      unfold onStreamData
      split
      · exact h
      · split
        · exact delaysWithin_congr h (fun d hd => hd) (fun d hd => by
            simpa using hd)
        · exact h
    · cases hs
  | streamError now =>
    simp only [step] at hs
    split at hs
    · exact delaysWithin_startSending hrnd h hs
    · cases hs
  | timerTick i now =>
    simp only [step] at hs
    split at hs
    · refine delaysWithin_timerCallback hrnd ?_ hs
      exact delaysWithin_congr h (fun d hd => (List.eraseIdx_sublist _ _).subset hd)
        (fun d hd => hd)
    · cases hs
  | channelClosing =>
    simp only [step] at hs
    split at hs
    · simp only [Option.some.injEq] at hs
      subst hs
      exact delaysWithin_congr h (fun d hd => hd) (fun d hd => hd)
    · cases hs
  | channelClose =>
    simp only [step] at hs
    split at hs
    · simp only [Option.some.injEq] at hs
      subst hs
      unfold onChannelClose
      split
      · exact delaysWithin_congr h (fun d hd => hd) (fun d hd => by
          simpa using hd)
      · exact delaysWithin_congr h (fun d hd => hd) (fun d hd => hd)
    · cases hs

theorem delaysWithin_run {env : Env} (hrnd : ∀ i, 0 ≤ env.rnd i ∧ env.rnd i < 1)
    (evs : List Event) {s s' : Session} (h : delaysWithin s)
    (hs : run env s evs = some s') : delaysWithin s' := by
  induction evs generalizing s with
  | nil =>
    simp only [run, Option.some.injEq] at hs
    subst hs
    exact h
  | cons e es ih =>
    simp only [run, Option.bind_eq_some] at hs
    obtain ⟨s1, h1, h2⟩ := hs
    exact ih (delaysWithin_step hrnd h h1) h2

theorem quiet_after_closed_tick {env : Env} (evs : List Event) {s s' : Session}
    (base : List Effect) (ht : s.timers = [])
    (hbase : ∃ extra, s.effects = base ++ extra ∧ ∀ x ∈ extra, x = Effect.streamClose)
    (hev : ∀ e ∈ evs, e.isSchedulerEvent = true) (hs : run env s evs = some s') :
    s'.timers = [] ∧ (∀ e ∈ evs, e.isTick = false) ∧
      ∃ extra, s'.effects = base ++ extra ∧ ∀ x ∈ extra, x = Effect.streamClose := by
  induction evs generalizing s with
  | nil =>
    simp only [run, Option.some.injEq] at hs
    subst hs
    exact ⟨ht, fun e he => absurd he (List.not_mem_nil e), hbase⟩
  | cons e es ih =>
    simp only [run, Option.bind_eq_some] at hs
    obtain ⟨s1, h1, h2⟩ := hs
    have hes : ∀ e ∈ es, e.isSchedulerEvent = true :=
      fun x hx => hev x (List.mem_cons_of_mem _ hx)
    have he := hev e (List.mem_cons_self _ _)
    obtain ⟨extra, hx, hall⟩ := hbase
    cases e with
    | timerTick i now => simp [step, ht] at h1
    | channelClosing =>
      simp only [step] at h1
      split at h1
      · simp only [Option.some.injEq] at h1
        subst h1
        obtain ⟨a, b, c⟩ := ih (s := { s with readyState := ReadyState.CLOSING }) ht
          ⟨extra, hx, hall⟩ hes h2
        exact ⟨a, fun x hx' => by
          rcases List.mem_cons.mp hx' with rfl | hx'
          · rfl
          · exact b x hx', c⟩
      · cases h1
    | channelClose =>
      simp only [step] at h1
      split at h1
      · simp only [Option.some.injEq] at h1
        subst h1
        have hb : ∃ extra', (onChannelClose s).effects = base ++ extra' ∧
            ∀ x ∈ extra', x = Effect.streamClose := by
          unfold onChannelClose
          split
          · refine ⟨extra ++ [Effect.streamClose], by simp [hx], ?_⟩
            intro x hx'
            rcases List.mem_append.mp hx' with hx' | hx'
            · exact hall x hx'
            · simpa using hx'
          · exact ⟨extra, hx, hall⟩
        have htm : (onChannelClose s).timers = [] := by
          unfold onChannelClose
          split <;> exact ht
        obtain ⟨a, b, c⟩ := ih htm hb hes h2
        exact ⟨a, fun x hx' => by
          rcases List.mem_cons.mp hx' with rfl | hx'
          · rfl
          · exact b x hx', c⟩
      · cases h1
    | connection now => cases he
    | setup o now => cases he
    | streamData td now => cases he
    | streamError now => cases he

/-- Claim C5, amended.  The fallback scheduler, for draws in `[0, 1)`: started on
an open channel it sends one synthetic record within the starting call and then
arms one timer whose delay is the double `2000 + r * 8000`; along every run all
delays it has scheduled are numbers in `[2000, 10000]`; and a timer tick on a
channel that is not open sends nothing and arms no timer, after which no timer
tick occurs and no record is sent. -/
theorem fallback_scheduler_contract (env : Env)
    (hrnd : ∀ i, 0 ≤ env.rnd i ∧ env.rnd i < 1) (now : String) (s : Session) :
    (s.readyState = ReadyState.OPEN →
      ∃ r, generateRandomTweet now env.rnd s.pos = some r ∧
        startSendingSimulatedTweets env now s = some { s with
          pos := s.pos + 8
          timers := s.timers ++ [interval (env.rnd (s.pos + 7))]
          effects := s.effects ++ [Effect.startFallback,
            Effect.send Origin.simulated (Message.tweet r),
            Effect.setTimeout (interval (env.rnd (s.pos + 7)))] }) ∧
    (delaysWithin s → ∀ evs s', run env s evs = some s' → delaysWithin s') ∧
    (s.readyState ≠ ReadyState.OPEN → ∀ d, s.timers = [d] →
      step env s (Event.timerTick 0 now) = some { s with timers := [] } ∧
      ∀ evs s', (∀ e ∈ evs, e.isSchedulerEvent = true) →
        run env { s with timers := [] } evs = some s' →
        s'.timers = [] ∧ (∀ e ∈ evs, e.isTick = false) ∧
          ∃ extra, s'.effects = s.effects ++ extra ∧
            ∀ x ∈ extra, x = Effect.streamClose) := by
  refine ⟨?_, ?_, ?_⟩
  · intro hopen
    obtain ⟨r, hr, hsend⟩ := sendSimulatedTweet_open env hrnd now
      { s with effects := s.effects ++ [Effect.startFallback] } hopen
    refine ⟨r, hr, ?_⟩
    simp [startSendingSimulatedTweets, hsend, scheduleNextTweet]
  · intro h evs s' hs
    exact delaysWithin_run hrnd evs h hs
  · intro hclosed d hd
    constructor
    · simp [step, hd, timerCallback, sendSimulatedTweet, hclosed]
    · intro evs s' hev hs
      exact quiet_after_closed_tick evs s.effects rfl ⟨[], by simp, by simp⟩ hev hs

/-- Witness for `fallback_scheduler_contract`: started on the open channel of a
fresh session, the scheduler sends one record and arms a timer of 6000 ms. -/
theorem fallback_scheduler_contract_witness :
    ∃ r, startSendingSimulatedTweets sampleEnv "t" initialSession = some
      { initialSession with
        pos := 8
        timers := [JSVal.num 6000]
        effects := [Effect.startFallback, Effect.send Origin.simulated (Message.tweet r),
          Effect.setTimeout (JSVal.num 6000)] } := by
  obtain ⟨r, -, h⟩ := (fallback_scheduler_contract sampleEnv (fun _ => by
    simp only [sampleEnv]; norm_num) "t" initialSession).1 rfl
  refine ⟨r, ?_⟩
  rw [h]
  have hi : interval (sampleEnv.rnd (initialSession.pos + 7)) = JSVal.num 6000 :=
    interval_half
  rw [hi]
  rfl

/-- Counterexample to claim C5 as stated: the draw `1 - 2 ^ (-53)`, the largest
double below `1`, makes `scheduleNextTweet` arm a timer of exactly `10000` ms,
which is not below `10000`. -/
theorem scheduleNextTweet_delay_10000 :
    (0 : ℚ) ≤ 1 - 1 / 2 ^ 53 ∧ (1 - 1 / 2 ^ 53 : ℚ) < 1 ∧
      (scheduleNextTweet lastDrawEnv initialSession).timers = [JSVal.num 10000] ∧
      ¬ ((10000 : ℚ) < 10000) := by
  refine ⟨by norm_num, by norm_num, ?_, by norm_num⟩
  have hi : interval (lastDrawEnv.rnd initialSession.pos) = JSVal.num 10000 :=
    interval_last_draw
  simp only [scheduleNextTweet, hi]
  rfl

/-! ## Sessions without credential -/

theorem noCredential_of_blank {token : Option String}
    (h : token = none ∨ ∃ t, token = some t ∧ ∀ c ∈ t.toList, isJSWhiteSpace c = true) :
    noCredential token = true := by
  rcases h with rfl | ⟨t, rfl, ht⟩
  · rfl
  · have h1 : t.toList.dropWhile isJSWhiteSpace = [] := by
      rw [List.dropWhile_eq_nil_iff]
      exact ht
    simp only [noCredential, jsTrim, h1, List.reverse_nil, List.dropWhile_nil]
    simp

theorem startSendingSimulatedTweets_total (env : Env)
    (hrnd : ∀ i, 0 ≤ env.rnd i ∧ env.rnd i < 1) (now : String) (s : Session) :
    ∃ s', startSendingSimulatedTweets env now s = some s' := by
  by_cases h : s.readyState = ReadyState.OPEN
  · obtain ⟨r, -, hsend⟩ := sendSimulatedTweet_open env hrnd now
      { s with effects := s.effects ++ [Effect.startFallback] } h
    rw [startSendingSimulatedTweets, hsend]
    exact ⟨_, rfl⟩
  · have hsend := sendSimulatedTweet_not_open env now
      { s with effects := s.effects ++ [Effect.startFallback] } h
    rw [startSendingSimulatedTweets, hsend]
    exact ⟨_, rfl⟩

theorem fallback_phase_step {env : Env} {s s' : Session} {e : Event}
    (hp : s.phase = Phase.fallback) (hs : step env s e = some s') :
    s'.phase = Phase.fallback ∧
      ∃ added, s'.effects = s.effects ++ added ∧ ∀ x ∈ added, x.isUpstream = false := by
  cases e with
  | connection now => simp [step, hp] at hs
  | setup o now => simp [step, hp] at hs
  | streamData td now => simp [step, hp] at hs
  | streamError now => simp [step, hp] at hs
  | timerTick i now =>
    simp only [step] at hs
    split at hs
    · obtain ⟨-, hph, sends, hsends, hcase⟩ := timerCallback_spec hs
      refine ⟨by rw [hph]; exact hp, ?_⟩
      rcases hcase with ⟨-, he⟩ | ⟨p, -, he⟩
      · refine ⟨sends, he, ?_⟩
        rcases hsends with rfl | ⟨r, rfl⟩ <;> simp [Effect.isUpstream]
      · refine ⟨_, he, ?_⟩
        rcases hsends with rfl | ⟨r, rfl⟩ <;> simp [Effect.isUpstream]
    · cases hs
  | channelClosing =>
    simp only [step] at hs
    split at hs
    · simp only [Option.some.injEq] at hs
      subst hs
      exact ⟨hp, [], by simp, by simp⟩
    · cases hs
  | channelClose =>
    simp only [step] at hs
    split at hs
    · simp only [Option.some.injEq] at hs
      subst hs
      simp only [onChannelClose, hp, reduceCtorEq, if_false]
      exact ⟨trivial, [], by simp, by simp⟩
    · cases hs

theorem fallback_phase_run {env : Env} (evs : List Event) {s s' : Session}
    (hp : s.phase = Phase.fallback) (hs : run env s evs = some s') :
    ∃ added, s'.effects = s.effects ++ added ∧ ∀ x ∈ added, x.isUpstream = false := by
  induction evs generalizing s with
  | nil =>
    simp only [run, Option.some.injEq] at hs
    subst hs
    exact ⟨[], by simp, by simp⟩
  | cons e es ih =>
    simp only [run, Option.bind_eq_some] at hs
    obtain ⟨s1, h1, h2⟩ := hs
    obtain ⟨hp1, a1, he1, hu1⟩ := fallback_phase_step hp h1
    obtain ⟨a2, he2, hu2⟩ := ih hp1 h2
    refine ⟨a1 ++ a2, by rw [he2, he1, List.append_assoc], ?_⟩
    intro x hx
    rcases List.mem_append.mp hx with hx | hx
    · exact hu1 x hx
    · exact hu2 x hx

/-- Claim C6.  In a session whose process has no credential (token unset, empty or
made of white space only), for draws in `[0, 1)`: the connection handler runs to
completion, and in every state reached afterwards the effects begin with the
greeting of type `"info"` followed by the start of fallback delivery, and contain
no call on the upstream client. -/
theorem session_without_credential (env : Env)
    (hcred : env.token = none ∨
      ∃ t, env.token = some t ∧ ∀ c ∈ t.toList, isJSWhiteSpace c = true)
    (hrnd : ∀ i, 0 ≤ env.rnd i ∧ env.rnd i < 1) (now : String) :
    (∃ s1, step env initialSession (Event.connection now) = some s1) ∧
    ∀ evs s, run env initialSession (Event.connection now :: evs) = some s →
      (∃ rest, s.effects =
        Effect.send Origin.greeting (Message.info "info" "Connected to WebSocket server") ::
          Effect.startFallback :: rest) ∧
      ∀ x ∈ s.effects, x.isUpstream = false := by
  have hno := noCredential_of_blank hcred
  have hstep : step env initialSession (Event.connection now) =
      startSendingSimulatedTweets env now { initialSession with
        phase := Phase.fallback
        effects := [Effect.send Origin.greeting greeting] } := by
    simp [step, initialSession, onConnection, hno]
  refine ⟨by rw [hstep]; exact startSendingSimulatedTweets_total env hrnd now _, ?_⟩
  intro evs s hs
  simp only [run, Option.bind_eq_some] at hs
  obtain ⟨s1, h1, h2⟩ := hs
  rw [hstep] at h1
  obtain ⟨-, hph, sends, p, hsends, -, he⟩ := startSendingSimulatedTweets_spec h1
  obtain ⟨added, hadd, hup⟩ := fallback_phase_run evs (by rw [hph]) h2
  have he' : s1.effects = [Effect.send Origin.greeting greeting] ++
      (Effect.startFallback :: sends ++
        [Effect.setTimeout (interval (env.rnd p))]) := he
  have hfirst : ∀ x ∈ s1.effects, x.isUpstream = false := by
    rw [he']
    rcases hsends with rfl | ⟨r', rfl⟩ <;> simp [Effect.isUpstream]
  rw [hadd]
  constructor
  · rw [he']
    exact ⟨_, rfl⟩
  · intro x hx
    rcases List.mem_append.mp hx with hx | hx
    · exact hfirst x hx
    · exact hup x hx

/-- Witness for `session_without_credential`: with the token unset, the
connection handler completes, its effects begin with the greeting and the start
of fallback delivery, and none of them is an upstream call. -/
theorem session_without_credential_witness :
    ∃ s1, step sampleEnvNoToken initialSession (Event.connection "t") = some s1 ∧
      (∃ rest, s1.effects =
        Effect.send Origin.greeting (Message.info "info" "Connected to WebSocket server") ::
          Effect.startFallback :: rest) ∧
      ∀ x ∈ s1.effects, x.isUpstream = false := by
  have h := session_without_credential sampleEnvNoToken (Or.inl rfl) (fun _ => by
    simp only [sampleEnvNoToken]; norm_num) "t"
  obtain ⟨s1, h1⟩ := h.1
  exact ⟨s1, h1, h.2 [] s1 (by simp [run, h1])⟩

/-! ## One delivery mechanism per session -/

theorem liveAfterFallback_append (xs ys : List Effect) :
    liveAfterFallback (xs ++ ys) =
      (liveAfterFallback xs || (fallbackStarted xs && ys.any Effect.isLive) ||
        liveAfterFallback ys) := by
  induction xs with
  | nil => simp [liveAfterFallback, fallbackStarted]
  | cons e xs ih =>
    show ((e.isStartFallback && (xs ++ ys).any Effect.isLive) ||
        liveAfterFallback (xs ++ ys)) =
      (((e.isStartFallback && xs.any Effect.isLive) || liveAfterFallback xs) ||
        (fallbackStarted (e :: xs) && ys.any Effect.isLive) || liveAfterFallback ys)
    rw [ih, List.any_append]
    simp only [fallbackStarted, List.any_cons]
    generalize e.isStartFallback = a
    generalize List.any xs Effect.isLive = b
    generalize List.any ys Effect.isLive = c
    generalize liveAfterFallback xs = d
    generalize List.any xs Effect.isStartFallback = f
    generalize liveAfterFallback ys = g
    cases a <;> cases b <;> cases c <;> cases d <;> cases f <;> cases g <;> rfl

theorem liveAfterFallback_of_no_live {ys : List Effect} (h : ∀ x ∈ ys, x.isLive = false) :
    ys.any Effect.isLive = false ∧ liveAfterFallback ys = false := by
  induction ys with
  | nil => exact ⟨rfl, rfl⟩
  | cons e es ih =>
    obtain ⟨h1, h2⟩ := ih (fun x hx => h x (List.mem_cons_of_mem _ hx))
    have he := h e (List.mem_cons_self _ _)
    simp [liveAfterFallback, h1, h2, he]

theorem liveAfterFallback_append_no_live {xs ys : List Effect}
    (h : ∀ x ∈ ys, x.isLive = false) :
    liveAfterFallback (xs ++ ys) = liveAfterFallback xs := by
  obtain ⟨h1, h2⟩ := liveAfterFallback_of_no_live h
  simp [liveAfterFallback_append, h1, h2]

theorem fallbackStarted_append (xs ys : List Effect) :
    fallbackStarted (xs ++ ys) = (fallbackStarted xs || fallbackStarted ys) := by
  simp [fallbackStarted]

theorem fallbackStarted_append_none {xs ys : List Effect}
    (h : ∀ x ∈ ys, x.isStartFallback = false) :
    fallbackStarted (xs ++ ys) = fallbackStarted xs := by
  rw [fallbackStarted_append]
  have : fallbackStarted ys = false := by
    simp only [fallbackStarted, List.any_eq_false]
    intro x hx
    simp [h x hx]
  simp [this]

theorem singleMechanism_startSending {env : Env} {now : String} {s s' : Session}
    (hl : liveAfterFallback s.effects = false) (ht : s.timers = [])
    (hs : startSendingSimulatedTweets env now s = some s') :
    s'.phase = s.phase ∧ s'.readyState = s.readyState ∧ s'.timers.length = 1 ∧
      liveAfterFallback s'.effects = false ∧ fallbackStarted s'.effects = true := by
  obtain ⟨hr, hp, sends, p, hsends, htm, he⟩ := startSendingSimulatedTweets_spec hs
  refine ⟨hp, hr, by rw [htm, ht]; rfl, ?_, ?_⟩
  · rw [he, liveAfterFallback_append_no_live, hl]
    rcases hsends with rfl | ⟨r, rfl⟩ <;> simp [Effect.isLive]
  · rw [he, fallbackStarted_append]
    simp [fallbackStarted, Effect.isStartFallback]

theorem singleMechanism_of_quiet {s t : Session} {a : List Effect}
    (hinv : SingleMechanism s) (ht : t.timers = s.timers)
    (he : t.effects = s.effects ++ a)
    (hq : ∀ x ∈ a, x.isLive = false ∧ x.isStartFallback = false)
    (hph : (t.phase = Phase.fresh ∨ t.phase = Phase.settingUp) →
      (s.phase = Phase.fresh ∨ s.phase = Phase.settingUp)) :
    SingleMechanism t ∧ fallbackStarted t.effects = fallbackStarted s.effects := by
  obtain ⟨h1, h2, h3, h4⟩ := hinv
  have hfs : fallbackStarted t.effects = fallbackStarted s.effects := by
    rw [he]; exact fallbackStarted_append_none (fun x hx => (hq x hx).2)
  refine ⟨⟨by rw [ht]; exact h1, ?_, ?_, ?_⟩, hfs⟩
  · rw [he, liveAfterFallback_append_no_live (fun x hx => (hq x hx).1)]; exact h2
  · intro h; rw [ht]; exact h3 (by rw [← hfs]; exact h)
  · intro h; rw [hfs]; exact h4 (hph h)

theorem singleMechanism_of_start {env : Env} {now : String} {t s1 : Session}
    (hl : liveAfterFallback t.effects = false) (ht : t.timers = [])
    (hs : startSendingSimulatedTweets env now t = some s1)
    (hp : t.phase = Phase.fallback ∨ t.phase = Phase.streaming) :
    SingleMechanism s1 ∧ s1.phase = t.phase ∧ fallbackStarted s1.effects = true := by
  obtain ⟨hph, -, htm, hlaf, hfs⟩ := singleMechanism_startSending hl ht hs
  refine ⟨⟨by omega, hlaf, ?_, ?_⟩, hph, hfs⟩
  · intro h; rw [hfs] at h; cases h
  · intro h
    rw [hph] at h
    rcases hp with hp | hp <;> rw [hp] at h <;> rcases h with h | h <;> cases h

theorem singleMechanism_step {env : Env} {s s1 : Session} {e : Event} {es : List Event}
    (hinv : SingleMechanism s) (hal : traceAllowed s (e :: es))
    (hs : step env s e = some s1) : SingleMechanism s1 ∧ traceAllowed s1 es := by
  cases e with
  | connection now =>
    simp only [step] at hs
    split at hs
    · rename_i hph
      have hfs := hinv.2.2.2 (Or.inl hph)
      have htm := hinv.2.2.1 hfs
      have hal' : errorTerminal es = true := by
        simpa [traceAllowed, hph, errorTerminal] using hal
      unfold onConnection at hs
      split at hs
      · obtain ⟨h1, h2, -⟩ := singleMechanism_of_start (t := { s with
            effects := s.effects ++ [Effect.send Origin.greeting greeting]
            phase := Phase.fallback }) (by
            simp only []
            rw [liveAfterFallback_append_no_live (by simp [Effect.isLive])]
            exact hinv.2.1) htm hs (Or.inl rfl)
        refine ⟨h1, ?_⟩
        simp only [] at h2
        simp [traceAllowed, h2, hal']
      · simp only [Option.some.injEq] at hs
        subst hs
        obtain ⟨h1, h2⟩ := singleMechanism_of_quiet (t := { s with
            effects := s.effects ++ [Effect.send Origin.greeting greeting]
            phase := Phase.settingUp }) (a := [Effect.send Origin.greeting greeting])
          hinv rfl rfl (by simp [Effect.isLive, Effect.isStartFallback])
          (fun _ => Or.inl hph)
        exact ⟨h1, by simp [traceAllowed, hal']⟩
    · cases hs
  | setup o now =>
    simp only [step] at hs
    split at hs
    · rename_i hph
      have hfs := hinv.2.2.2 (Or.inr hph)
      have htm := hinv.2.2.1 hfs
      have hal' : errorTerminal es = true := by
        simpa [traceAllowed, hph, errorTerminal] using hal
      unfold onSetup at hs
      split at hs
      · simp only [Option.some.injEq] at hs
        subst hs
        obtain ⟨h1, h2⟩ := singleMechanism_of_quiet (t := { s with
            effects := s.effects ++ o.calls.map Effect.upstream
            phase := Phase.streaming }) (a := o.calls.map Effect.upstream)
          hinv rfl rfl (by
            intro x hx
            rw [List.mem_map] at hx
            obtain ⟨c, -, rfl⟩ := hx
            exact ⟨rfl, rfl⟩)
          (fun h => by rcases h with h | h <;> cases h)
        refine ⟨h1, ?_⟩
        simp only [] at h2
        simp [traceAllowed, h2, hfs, hal']
      · obtain ⟨h1, h2, -⟩ := singleMechanism_of_start (t := { s with
            effects := s.effects ++ o.calls.map Effect.upstream
            phase := Phase.fallback }) (by
            simp only []
            rw [liveAfterFallback_append_no_live (by
              intro x hx
              rw [List.mem_map] at hx
              obtain ⟨c, -, rfl⟩ := hx
              rfl)]
            exact hinv.2.1) htm hs (Or.inl rfl)
        refine ⟨h1, ?_⟩
        simp only [] at h2
        simp [traceAllowed, h2, hal']
    · cases hs
  | streamData td now =>
    simp only [step] at hs
    split at hs
    · rename_i hph
      simp only [Option.some.injEq] at hs
      subst hs
      have hfs : fallbackStarted s.effects = false := by
        cases hf : fallbackStarted s.effects with
        | false => rfl
        | true => simp [traceAllowed, hph, hf, Event.isStreamEvent] at hal
      have hal' : errorTerminal es = true := by
        simpa [traceAllowed, hph, hfs, errorTerminal] using hal
      have key : ∀ s1 : Session, s1.timers = s.timers → s1.phase = s.phase →
          (s1.effects = s.effects ∨ ∃ r, s1.effects = s.effects ++
            [Effect.send Origin.live (Message.tweet r)]) →
          SingleMechanism s1 ∧ traceAllowed s1 es := by
        intro s1 ht hp he
        have hfs1 : fallbackStarted s1.effects = false := by
          rcases he with he | ⟨r, he⟩
          · rw [he]; exact hfs
          · rw [he, fallbackStarted_append_none (by simp [Effect.isStartFallback])]
            exact hfs
        refine ⟨⟨by rw [ht]; exact hinv.1, ?_, fun _ => by rw [ht]; exact hinv.2.2.1 hfs,
          fun _ => hfs1⟩, by simp [traceAllowed, hfs1, hal']⟩
        rcases he with he | ⟨r, he⟩
        · rw [he]; exact hinv.2.1
        · rw [he, liveAfterFallback_append, hinv.2.1, hfs]
          rfl
      unfold onStreamData
      split
      · exact key s rfl rfl (Or.inl rfl)
      · split
        · exact key _ rfl rfl (Or.inr ⟨_, rfl⟩)
        · exact key s rfl rfl (Or.inl rfl)
    · cases hs
  | streamError now =>
    simp only [step] at hs
    split at hs
    · rename_i hph
      have hfs : fallbackStarted s.effects = false := by
        cases hf : fallbackStarted s.effects with
        | false => rfl
        | true => simp [traceAllowed, hph, hf, Event.isStreamEvent] at hal
      have hal' : es.all (fun e => !e.isStreamEvent) = true := by
        simpa [traceAllowed, hph, hfs, errorTerminal] using hal
      obtain ⟨h1, h2, h3⟩ := singleMechanism_of_start hinv.2.1 (hinv.2.2.1 hfs) hs
        (Or.inr hph)
      refine ⟨h1, ?_⟩
      rw [hph] at h2
      simpa [traceAllowed, h2, h3] using hal'
    · cases hs
  | timerTick i now =>
    simp only [step] at hs
    split at hs
    · rename_i hi
      have hlen : s.timers.length = 1 := by have := hinv.1; omega
      have hi0 : i = 0 := by omega
      subst hi0
      have hfs : fallbackStarted s.effects = true := by
        cases hf : fallbackStarted s.effects with
        | true => rfl
        | false => rw [hinv.2.2.1 hf] at hlen; cases hlen
      have ht0 : s.timers.eraseIdx 0 = [] := by
        match htm : s.timers, hlen with
        | [x], _ => rfl
      obtain ⟨-, hp, sends, hsends, hcase⟩ := timerCallback_spec hs
      have hadd : ∃ added, s1.effects = s.effects ++ added ∧
          (∀ x ∈ added, x.isLive = false ∧ x.isStartFallback = false) ∧
          s1.timers.length ≤ 1 := by
        rcases hcase with ⟨ht, he⟩ | ⟨p, ht, he⟩
        · refine ⟨sends, he, ?_, by rw [ht]; simp [ht0]⟩
          rcases hsends with rfl | ⟨r, rfl⟩ <;>
            simp [Effect.isLive, Effect.isStartFallback]
        · refine ⟨_, he, ?_, by rw [ht]; simp [ht0]⟩
          rcases hsends with rfl | ⟨r, rfl⟩ <;>
            simp [Effect.isLive, Effect.isStartFallback]
      obtain ⟨added, he, hq, hl1⟩ := hadd
      have hfs1 : fallbackStarted s1.effects = true := by
        rw [he, fallbackStarted_append_none (fun x hx => (hq x hx).2)]; exact hfs
      refine ⟨⟨hl1, ?_, ?_, ?_⟩, ?_⟩
      · rw [he, liveAfterFallback_append_no_live (fun x hx => (hq x hx).1)]
        exact hinv.2.1
      · intro h
        rw [hfs1] at h
        cases h
      · intro h
        have hp' : s1.phase = s.phase := hp
        rw [hp'] at h
        have := hinv.2.2.2 h
        rw [hfs] at this; cases this
      · have hp' : s1.phase = s.phase := hp
        simp only [traceAllowed, hp', hfs1, hfs] at hal ⊢
        simpa [Event.isStreamEvent, errorTerminal] using hal
    · cases hs
  | channelClosing =>
    simp only [step] at hs
    split at hs
    · simp only [Option.some.injEq] at hs
      subst hs
      refine ⟨hinv, ?_⟩
      simp only [traceAllowed] at hal ⊢
      simpa [Event.isStreamEvent, errorTerminal] using hal
    · cases hs
  | channelClose =>
    simp only [step] at hs
    split at hs
    · simp only [Option.some.injEq] at hs
      subst hs
      have key : ∃ added, (onChannelClose s).effects = s.effects ++ added ∧
          (∀ x ∈ added, x.isLive = false ∧ x.isStartFallback = false) ∧
          (onChannelClose s).timers = s.timers ∧ (onChannelClose s).phase = s.phase := by
        unfold onChannelClose
        split
        · exact ⟨[Effect.streamClose], rfl, by simp [Effect.isLive, Effect.isStartFallback],
            rfl, rfl⟩
        · exact ⟨[], by simp, by simp, rfl, rfl⟩
      obtain ⟨added, he, hq, ht, hp⟩ := key
      obtain ⟨h1, h2⟩ := singleMechanism_of_quiet hinv ht he hq (fun h => by rw [hp] at h; exact h)
      refine ⟨h1, ?_⟩
      simp only [traceAllowed, hp, h2] at hal ⊢
      simpa [Event.isStreamEvent, errorTerminal] using hal
    · cases hs

theorem singleMechanism_run {env : Env} (evs : List Event) {s s' : Session}
    (hinv : SingleMechanism s) (hal : traceAllowed s evs)
    (hs : run env s evs = some s') : SingleMechanism s' := by
  induction evs generalizing s with
  | nil =>
    simp only [run, Option.some.injEq] at hs
    subst hs
    exact hinv
  | cons e es ih =>
    simp only [run, Option.bind_eq_some] at hs
    obtain ⟨s1, h1, h2⟩ := hs
    obtain ⟨hinv1, hal1⟩ := singleMechanism_step hinv hal h1
    exact ih hinv1 hal1 h2

/-- Claim C8, amended.  Along every run of a session in which the stream raises no
data or error event after its first error event, every reachable state has at
most one fallback scheduler loop running, and no live-normalized record is sent
after the fallback scheduler has been started. -/
theorem session_single_mechanism (env : Env) (evs : List Event) (s : Session)
    (hterm : errorTerminal evs = true)
    (hrun : run env initialSession evs = some s) :
    s.timers.length ≤ 1 ∧ liveAfterFallback s.effects = false := by
  have hinv : SingleMechanism initialSession :=
    ⟨Nat.zero_le _, rfl, fun _ => rfl, fun _ => rfl⟩
  have hal : traceAllowed initialSession evs := by
    simp [traceAllowed, initialSession, hterm]
  obtain ⟨h1, h2, -⟩ := singleMechanism_run evs hinv hal hrun
  exact ⟨h1, h2⟩

theorem sampleEnv_draws : ∀ i, 0 ≤ sampleEnv.rnd i ∧ sampleEnv.rnd i < 1 := by
  intro i
  simp only [sampleEnv]
  norm_num

theorem run_to_streaming (es : List Event) :
    run sampleEnv initialSession
      (Event.connection "t" :: Event.setup (SetupOutcome.ok false) "t" :: es) =
      run sampleEnv streamingSession es := rfl

/-- Counterexample to claim C8 as stated.  After a successful setup, two stream
error events leave two fallback scheduler loops running; and a stream data event
after a stream error sends a live-normalized record although the fallback
scheduler has been started. -/
theorem session_two_mechanisms :
    (∃ s, run sampleEnv initialSession
        [Event.connection "t", Event.setup (SetupOutcome.ok false) "t",
          Event.streamError "t", Event.streamError "t"] = some s ∧
      s.timers.length = 2) ∧
    (∃ s, run sampleEnv initialSession
        [Event.connection "t", Event.setup (SetupOutcome.ok false) "t",
          Event.streamError "t", Event.streamData sampleEvent "t"] = some s ∧
      liveAfterFallback s.effects = true) := by
  obtain ⟨s3, h3⟩ := startSendingSimulatedTweets_total sampleEnv sampleEnv_draws "t"
    streamingSession
  obtain ⟨hr3, hp3, sends3, p3, -, ht3, he3⟩ := startSendingSimulatedTweets_spec h3
  have hstep3 : step sampleEnv streamingSession (Event.streamError "t") = some s3 := h3
  have hp3' : s3.phase = Phase.streaming := hp3
  constructor
  · obtain ⟨s4, h4⟩ := startSendingSimulatedTweets_total sampleEnv sampleEnv_draws "t" s3
    obtain ⟨-, -, sends4, p4, -, ht4, -⟩ := startSendingSimulatedTweets_spec h4
    have hstep4 : step sampleEnv s3 (Event.streamError "t") = some s4 := by
      simp only [step, hp3', if_true, onStreamError, h4]
    refine ⟨s4, ?_, ?_⟩
    · rw [run_to_streaming]
      simp [run, hstep3, hstep4]
    · rw [ht4, ht3]
      rfl
  · have hr3' : s3.readyState = ReadyState.OPEN := hr3
    have hproc : processTweetData sampleEnv.rt "t" sampleEvent ≠ none := by
      intro h; cases h
    cases hrec : processTweetData sampleEnv.rt "t" sampleEvent with
    | none => exact absurd hrec hproc
    | some r =>
      have hstep4 : step sampleEnv s3 (Event.streamData sampleEvent "t") =
          some { s3 with
            effects := s3.effects ++ [Effect.send Origin.live (Message.tweet r)] } := by
        simp only [step, hp3', if_true, onStreamData, hr3', ne_eq, not_true_eq_false,
          if_false, hrec]
      refine ⟨{ s3 with
        effects := s3.effects ++ [Effect.send Origin.live (Message.tweet r)] }, ?_, ?_⟩
      · rw [run_to_streaming]
        simp [run, hstep3, hstep4]
      · simp only []
        rw [liveAfterFallback_append, he3, fallbackStarted_append]
        simp [fallbackStarted, Effect.isStartFallback, Effect.isLive]

/-- Witness for `session_single_mechanism`: a run with one stream error, after which one scheduler loop is running. -/
theorem session_single_mechanism_witness :
    ∃ s, run sampleEnv initialSession
        [Event.connection "t", Event.setup (SetupOutcome.ok false) "t",
          Event.streamError "t"] = some s ∧
      s.timers.length ≤ 1 ∧ liveAfterFallback s.effects = false := by
  obtain ⟨s3, h3⟩ := startSendingSimulatedTweets_total sampleEnv sampleEnv_draws "t"
    streamingSession
  have hstep3 : step sampleEnv streamingSession (Event.streamError "t") = some s3 := h3
  have hrun : run sampleEnv initialSession
      [Event.connection "t", Event.setup (SetupOutcome.ok false) "t",
        Event.streamError "t"] = some s3 := by
    rw [run_to_streaming]
    simp [run, hstep3]
  exact ⟨s3, hrun, session_single_mechanism sampleEnv
    [Event.connection "t", Event.setup (SetupOutcome.ok false) "t", Event.streamError "t"]
    s3 rfl hrun⟩

end XGlobe
